import Mathlib

/-!
# Verification of the hypernovum layout & spatial-editing subsystem

This file is a shallow embedding, in Lean 4, of the layout and interactive
spatial-editing core of the hypernovum repository:

* `BinPacker.packDistricts` / `BinPacker.arrangeGridLayout`
  (src/unnamed/part_005) — the deterministic layout engine;
* `SceneManager` (src/packages/core/src/scene/SceneManager.ts) — the
  stateful pointer-interaction controller: `buildCity`,
  `applySavedPositions`, `triggerSave`, `moveBlock`, `moveSingleBuilding`,
  `recalcBlockBounds`, `centerSingleBuildings`, `onMouseMove`,
  `onMouseDown`, `onMouseUp`, `onKeyDown`.

Modelling conventions:

* JS numbers are modelled by `ℚ` where the source only ever produces finite
  values, and by `JVal` (`ℚ` plus `NaN`) where the source can produce `NaN`
  (building dimensions, which flow from `Math.sqrt(scope)` with a possibly
  `undefined` scope, and the block bounds recomputed from those dimensions).
  `Math.round x` is `⌊x + 1/2⌋` (round half toward +∞), which is exactly
  JS semantics for finite arguments.
* `Math.sqrt` is not rational; the embedding is parametrised by an
  arbitrary `sq : ℚ → ℚ` standing for the square root on non-negative
  rationals.  All theorems below either hold for every `sq` or instantiate
  it only at perfect squares, where the real square root is rational and
  the instantiation is exact.
* JS `Map`s are association lists with `Map.set` replace-in-place
  semantics (`alSet`); iteration order is insertion order, as in JS.
* JS `Array.prototype.sort` (stable since ES2019) with an integer-valued
  comparator whose range is finite is modelled as the concatenation of the
  comparator's rank buckets in ascending rank order, each bucket in input
  order — which is exactly what a stable sort produces.
* Scene-graph objects (meshes, materials, labels) are rendering-only and
  are not modelled; only the data the controller reads back is kept
  (project positions/dimensions, block bounds, offset maps, interaction
  fields).  Object identity of a building mesh is modelled by the
  project's `path` (the source itself keys `buildingPathMap` by path);
  this is exact as long as no rebuild intervenes within a scenario, since
  a rebuild replaces mesh objects.
-/

namespace Hypernovum

/-! ## JS numerics -/

/-- JS `Math.round` on a finite number: round half toward `+∞`. -/
def jsRound (q : ℚ) : ℤ := ⌊q + 1/2⌋

/-- `BinPacker.gridSize` = `SceneManager.gridSize` = 5. -/
def gridSize : ℚ := 5

/-- `snapToGrid(value) = Math.round(value / gridSize) * gridSize`
(`BinPacker.snapToGrid`; the same formula is inlined in
`SceneManager.onMouseMove` for the drag accumulator). -/
def snapToGrid (v : ℚ) : ℚ := (jsRound (v / gridSize) : ℚ) * gridSize

/-- A committed quantity is grid-aligned when it is an integer multiple of
`gridSize`. -/
def GridAligned (q : ℚ) : Prop := ∃ k : ℤ, q = gridSize * k

/-- A JS number that may be `NaN`.  Needed because
`Math.sqrt(undefined) = NaN` and `NaN` then flows through min/max/mul
unchecked. -/
inductive JVal where
  | nan : JVal
  | num (q : ℚ) : JVal
deriving DecidableEq, Repr

namespace JVal

/-- JS `+` with `NaN` propagation. -/
def jadd : JVal → JVal → JVal
  | num a, num b => num (a + b)
  | _, _ => nan

/-- JS `-` with `NaN` propagation. -/
def jsub : JVal → JVal → JVal
  | num a, num b => num (a - b)
  | _, _ => nan

/-- JS `*` with `NaN` propagation. -/
def jmul : JVal → JVal → JVal
  | num a, num b => num (a * b)
  | _, _ => nan

/-- JS `Math.min` (returns `NaN` if either argument is `NaN`). -/
def jmin : JVal → JVal → JVal
  | num a, num b => num (min a b)
  | _, _ => nan

/-- JS `Math.max` (returns `NaN` if either argument is `NaN`). -/
def jmax : JVal → JVal → JVal
  | num a, num b => num (max a b)
  | _, _ => nan

/-- Halving, used for `width / 2` and `(min + max) / 2`. -/
def jhalf : JVal → JVal
  | num a => num (a / 2)
  | nan => nan

/-- JS `Math.abs(v) < c` — `false` when `v` is `NaN`, exactly as the
comparison operator behaves on `NaN` in JS. -/
def jabsLt (v : JVal) (c : ℚ) : Bool :=
  match v with
  | num a => |a| < c
  | nan => false

end JVal

/-! ## JS `Map` as an association list (insertion order preserved) -/

section AList

variable {κ : Type} {α : Type} [DecidableEq κ]

/-- `Map.get` — first (unique) entry with the key. -/
def alGet : List (κ × α) → κ → Option α
  | [], _ => none
  | e :: es, k => if e.1 = k then some e.2 else alGet es k

/-- `Map.set` — replace in place if the key exists (JS keeps the original
insertion position), else append. -/
def alSet : List (κ × α) → κ → α → List (κ × α)
  | [], k, v => [(k, v)]
  | e :: es, k, v => if e.1 = k then (k, v) :: es else e :: alSet es k v

/-- `Map.has`. -/
def alHas (l : List (κ × α)) (k : κ) : Bool := (alGet l k).isSome

end AList

/-! ## Data model (src/packages/core/src/types.ts)

Only the fields the layout/interaction subsystem reads are modelled;
`title`, `status`, `health`, … are rendering/tooltip data.  `scope` is an
`Option ℚ` because the TS field, though declared `number`, can be
`undefined` at runtime (nothing validates parsed frontmatter) and the
spec's error-handling section is about exactly that case. -/

structure Pos where
  x : ℚ
  z : ℚ
deriving DecidableEq, Repr

structure Dims where
  width : JVal
  height : ℚ
  depth : JVal
deriving DecidableEq, Repr

structure Proj where
  path : String
  category : String
  stage : String
  priority : String
  scope : Option ℚ
  position : Option Pos
  dimensions : Option Dims
deriving DecidableEq, Repr

/-- `District.bounds` as produced by the bin packer: `{x, z, width, depth}`. -/
structure Rect where
  x : ℚ
  z : ℚ
  width : ℚ
  depth : ℚ
deriving DecidableEq, Repr

/-- A district: projects sharing a `stage_category` key. -/
structure District where
  stage : String
  category : String
  buildings : List Proj
  bounds : Rect
deriving DecidableEq, Repr

/-- The grouping key: `` `${project.stage}_${project.category}` ``. -/
def projKey (p : Proj) : String := p.stage ++ "_" ++ p.category

/-! ## BinPacker (src/unnamed/part_005) -/

namespace BinPacker

/-- `buildingSpacing = 2`. -/
def buildingSpacing : ℚ := 2
/-- `buildingsPerRow = 4`. -/
def buildingsPerRow : Nat := 4
/-- `blockGap = 15`. -/
def blockGap : ℚ := 15
/-- `stageGap = 10`. -/
def stageGap : ℚ := 10
/-- The canonical stage order used for district placement. -/
def stages : List String := ["backlog", "active", "paused", "complete"]

/-- `priorityOrder[p] ?? 2` from `arrangeGridLayout`'s comparator. -/
def priorityRank (p : String) : Nat :=
  if p = "critical" then 0
  else if p = "high" then 1
  else if p = "medium" then 2
  else if p = "low" then 3
  else 2

/-- `stages.indexOf(s)` (−1 when absent), from the district comparator. -/
def stageIdx (s : String) : Int :=
  if s = "backlog" then 0
  else if s = "active" then 1
  else if s = "paused" then 2
  else if s = "complete" then 3
  else -1

/-- `calculateHeight`: `(stories[priority] ?? 2) * 2.5`. -/
def calculateHeight (p : String) : ℚ :=
  (if p = "critical" then 7
   else if p = "high" then 5
   else if p = "medium" then 3
   else if p = "low" then 3/2
   else 2) * (5/2)

/-- `Math.max(2, Math.min(4, Math.sqrt(building.scope) * 0.4))`, JS
semantics: an `undefined` (or negative) scope makes `Math.sqrt` return
`NaN`, which then survives `min`/`max` unchanged.  `sq` stands for the
square root on non-negative rationals. -/
def jsBaseSize (sq : ℚ → ℚ) : Option ℚ → JVal
  | none => JVal.nan
  | some s =>
      if s < 0 then JVal.nan
      else JVal.jmax (JVal.num 2) (JVal.jmin (JVal.num 4) (JVal.jmul (JVal.num (sq s)) (JVal.num (2/5))))

/-- A project tagged with its index in the input array; the tag models JS
object identity (two projects with equal fields are still distinct
objects and receive distinct layout slots). -/
abbrev TProj := Nat × Proj

/-- One entry of the `districts` map during grouping: the key, the stage
and category recorded from the first member, and the member list in input
order. -/
structure GroupE where
  key : String
  stage : String
  category : String
  buildings : List TProj
deriving DecidableEq, Repr

/-- One iteration of the grouping loop of `packDistricts` step 1: insert
a fresh district at first key occurrence (recording the first member's
stage and category), and append the member to its key's entry. -/
def addToGroups (gs : List GroupE) (tp : TProj) : List GroupE :=
  if gs.any fun g => g.key = projKey tp.2 then
    gs.map fun g =>
      if g.key = projKey tp.2 then { g with buildings := g.buildings ++ [tp] } else g
  else gs ++ [⟨projKey tp.2, tp.2.stage, tp.2.category, [tp]⟩]

/-- The grouping loop of `packDistricts` step 1 (the `districts` map in
insertion order). -/
def buildGroups (l : List TProj) : List GroupE := l.foldl addToGroups []

/-- All elements of `l` whose grouping key is `k`, in order. -/
def keyFilter (l : List TProj) (k : String) : List TProj :=
  l.filter fun tp => projKey tp.2 = k

/-- Proof-side characterization of the grouping loop: the first element
opens its key's group (whose members are all elements with the same key,
in order), followed by the groups of the remaining elements.
`buildGroups_eq_rec` below identifies it with `buildGroups`. -/
def groupsRec : List TProj → List GroupE
  | [] => []
  | tp :: rest =>
      ⟨projKey tp.2, tp.2.stage, tp.2.category, tp :: keyFilter rest (projKey tp.2)⟩ ::
      groupsRec (rest.filter fun q => ¬ projKey q.2 = projKey tp.2)
termination_by l => l.length
decreasing_by
  simp only [List.length_cons]
  exact Nat.lt_succ_of_le (List.length_filter_le _ _)

/-- Stable sort of `district.buildings` by `priorityRank` (JS
`Array.sort` with comparator `priorityOrder[a] - priorityOrder[b]`, which
is stable): concatenation of the rank buckets 0,1,2,3 — `priorityRank`
takes no other value — each in input order. -/
def sortByPriority (bs : List TProj) : List TProj :=
  (bs.filter fun b => priorityRank b.2.priority = 0) ++
  (bs.filter fun b => priorityRank b.2.priority = 1) ++
  (bs.filter fun b => priorityRank b.2.priority = 2) ++
  (bs.filter fun b => priorityRank b.2.priority = 3)

/-- Stable sort of a category's districts by `stages.indexOf(stage)`
(comparator `indexOf(a) - indexOf(b)`): buckets −1,0,1,2,3 in input
order. -/
def sortByStage (ds : List GroupE) : List GroupE :=
  (ds.filter fun d => stageIdx d.stage = -1) ++
  (ds.filter fun d => stageIdx d.stage = 0) ++
  (ds.filter fun d => stageIdx d.stage = 1) ++
  (ds.filter fun d => stageIdx d.stage = 2) ++
  (ds.filter fun d => stageIdx d.stage = 3)

/-- The body of `arrangeGridLayout`'s `forEach((building, index) => …)`:
assign the building at slot `index` its row-major grid position from
`(startX, startZ)` and its scope/priority-derived dimensions.
`cellSize = gridSize + buildingSpacing = 7`. -/
def assignSlot (sq : ℚ → ℚ) (startX startZ : ℚ) (index : Nat) (p : Proj) : Proj :=
  let row : Nat := index / buildingsPerRow
  let col : Nat := index % buildingsPerRow
  let cellSize : ℚ := gridSize + buildingSpacing
  let base := jsBaseSize sq p.scope
  { p with
    position := some
      { x := snapToGrid (startX + (col : ℚ) * cellSize + gridSize / 2)
        z := snapToGrid (startZ + (row : ℚ) * cellSize + gridSize / 2) }
    dimensions := some
      { width := base
        height := calculateHeight p.priority
        depth := base } }

/-- The `forEach` loop itself, from slot `i` on. -/
def assignFrom (sq : ℚ → ℚ) (startX startZ : ℚ) : Nat → List TProj → List TProj
  | _, [] => []
  | i, b :: bs => (b.1, assignSlot sq startX startZ i b.2) :: assignFrom sq startX startZ (i + 1) bs

/-- `arrangeGridLayout` on one district's member list: sort by priority,
then assign slots in order. -/
def arrangeGridLayout (sq : ℚ → ℚ) (bs : List TProj) (startX startZ : ℚ) : List TProj :=
  assignFrom sq startX startZ 0 (sortByPriority bs)

/-- Lay out one district at cursor `(curX, curZ)`: the arranged (tagged)
members, the district bounds, the advanced X cursor, and the block depth
(for the category's `maxDepthInCategory`). -/
def layoutDistrict (sq : ℚ → ℚ) (g : GroupE) (curX curZ : ℚ) :
    List TProj × Rect × ℚ × ℚ :=
  let n := g.buildings.length
  let cols : Nat := min n buildingsPerRow
  let rows : Nat := (n + buildingsPerRow - 1) / buildingsPerRow
  let arranged := arrangeGridLayout sq g.buildings curX curZ
  let avgBuildingSize : ℚ := gridSize
  let blockWidth := snapToGrid ((cols : ℚ) * (avgBuildingSize + buildingSpacing))
  let blockDepth := snapToGrid ((rows : ℚ) * (avgBuildingSize + buildingSpacing))
  let bounds : Rect :=
    { x := curX, z := curZ
      width := max blockWidth gridSize
      depth := max blockDepth gridSize }
  (arranged, bounds, snapToGrid (curX + blockWidth + stageGap), blockDepth)

/-- The inner loop of `packDistricts` step 3: lay the (stage-sorted)
districts of one category left to right.  Returns the finished districts
(with tagged members kept for reconstructing the mutated input array) and
the tallest block depth. -/
def layoutCategory (sq : ℚ → ℚ) :
    List GroupE → ℚ → ℚ → ℚ → List (String × (District × List TProj)) →
    List (String × (District × List TProj)) × ℚ
  | [], _, _, maxD, acc => (acc, maxD)
  | g :: gs, curX, curZ, maxD, acc =>
      let r := layoutDistrict sq g curX curZ
      let d : District :=
        { stage := g.stage, category := g.category
          buildings := r.1.map Prod.snd, bounds := r.2.1 }
      layoutCategory sq gs r.2.2.1 curZ (max maxD r.2.2.2)
        (acc ++ [(g.key, (d, r.1))])

/-- The outer loop of `packDistricts` step 3: iterate the sorted
categories, advancing the Z cursor by the tallest block of each category
plus `blockGap`; a category whose filtered district list is empty is
skipped without advancing (`continue`). -/
def layoutCategories (sq : ℚ → ℚ) (groups : List GroupE) :
    List String → ℚ → List (String × (District × List TProj)) →
    List (String × (District × List TProj))
  | [], _, acc => acc
  | c :: cs, curZ, acc =>
      let catDs := groups.filter fun g => g.category = c
      if catDs.isEmpty then layoutCategories sq groups cs curZ acc
      else
        let r := layoutCategory sq (sortByStage catDs) gridSize curZ 0 acc
        layoutCategories sq groups cs (snapToGrid (curZ + r.2 + blockGap)) r.1

/-- `[...new Set(projects.map(p => p.category))].sort()`: the
lexicographically sorted list of distinct categories. -/
def sortedCategories (P : List Proj) : List String :=
  ((P.map Proj.category).dedup).insertionSort (· ≤ ·)

/-- `packDistricts`, with the in-place mutation of the input array made
explicit: returns the districts map (association list in processing
order; as a key→value map it equals the JS `Map`) and the input project
list with positions/dimensions written back (JS mutates the shared
objects). -/
def packDistricts (sq : ℚ → ℚ) (P : List Proj) :
    List (String × District) × List Proj :=
  let groups := buildGroups P.enum
  let laid := layoutCategories sq groups (sortedCategories P) gridSize []
  let assigns : List (Nat × Proj) := (laid.map fun e => e.2.2).flatten
  let districts := laid.map fun e => (e.1, e.2.1)
  let P' := P.enum.map fun ip => (alGet assigns ip.1).getD ip.2
  (districts, P')

end BinPacker

/-! ## SceneManager (src/packages/core/src/scene/SceneManager.ts)

The scene state keeps exactly the data the controller logic reads back:
the (aliased) project array, the per-category block map with its bounds,
the two offset maps, and the interaction-controller fields.  Meshes,
materials, labels, cameras and cursors are rendering-only.  A
`console.warn` in `applySavedPositions` is modelled by appending the
offending category to `warnings`. -/

/-- `BlockData.bounds`: `{minX, maxX, minZ, maxZ}`.  `JVal` because
`recalcBlockBounds` derives them from building widths, which can be
`NaN`. -/
structure JBox where
  minX : JVal
  maxX : JVal
  minZ : JVal
  maxZ : JVal
deriving DecidableEq, Repr

/-- `BlockData`, restricted to the fields the modelled logic reads. -/
structure Block where
  category : String
  bounds : JBox
deriving DecidableEq, Repr

/-- The `SceneManager` state visible to the layout/interaction logic.
`draggedBlock` is modelled by the block's category (every use of the
field in the source reads only `.category`); `movingBuilding` and
`lastClicked` by the project's path. -/
structure Scene where
  projects : List Proj
  blocks : List (String × Block)
  blockOffsets : List (String × (ℚ × ℚ))
  savedPositions : List (String × (ℚ × ℚ))
  warnings : List String
  isDragging : Bool
  draggedBlock : Option String
  movingBuilding : Option String
  dragAccumulator : ℚ × ℚ
  dragStartPoint : ℚ × ℚ
  buildingDragStart : ℚ × ℚ
  lastClickTime : ℤ
  lastClicked : Option String
deriving DecidableEq, Repr

namespace Scene

/-- A project for which `buildCity` created a building mesh (it had both
`position` and `dimensions`); membership in `this.buildings` is fixed at
build time and neither field is ever unset afterwards. -/
def hasRender (p : Proj) : Bool := p.position.isSome && p.dimensions.isSome

/-- Translate a project's position (the `y` coordinate is constant 0). -/
def moveProjXZ (p : Proj) (dx dz : ℚ) : Proj :=
  { p with position := p.position.map fun pos => ⟨pos.x + dx, pos.z + dz⟩ }

/-- Translate a `JVal` box. -/
def shiftJBox (b : JBox) (dx dz : ℚ) : JBox :=
  { minX := JVal.jadd b.minX (JVal.num dx), maxX := JVal.jadd b.maxX (JVal.num dx)
    minZ := JVal.jadd b.minZ (JVal.num dz), maxZ := JVal.jadd b.maxZ (JVal.num dz) }

/-- `moveBlock(category, deltaX, deltaZ)`: translate every rendered
project of the category (and its scene objects), and the block's bounds
if the category has a block. -/
def moveBlock (st : Scene) (cat : String) (dx dz : ℚ) : Scene :=
  { st with
    projects := st.projects.map fun p =>
      if hasRender p && p.category = cat then moveProjXZ p dx dz else p
    blocks := st.blocks.map fun e =>
      if e.1 = cat then (e.1, { e.2 with bounds := shiftJBox e.2.bounds dx dz }) else e }

/-- The four footprint edges of a rendered project:
`(x − w/2, x + w/2, z − d/2, z + d/2)`. -/
def corners (p : Proj) : Option (JVal × JVal × JVal × JVal) :=
  match p.position, p.dimensions with
  | some pos, some d =>
      some (JVal.jsub (JVal.num pos.x) (JVal.jhalf d.width),
            JVal.jadd (JVal.num pos.x) (JVal.jhalf d.width),
            JVal.jsub (JVal.num pos.z) (JVal.jhalf d.depth),
            JVal.jadd (JVal.num pos.z) (JVal.jhalf d.depth))
  | _, _ => none

/-- Fold of the `Math.min`/`Math.max` bound accumulation over a nonempty
corner list (the JS loop starts from `±Infinity`; over a nonempty list
that equals folding from the first element, also in the presence of
`NaN`). -/
def tightBox (c : JVal × JVal × JVal × JVal) (cs : List (JVal × JVal × JVal × JVal)) : JBox :=
  cs.foldl (fun b c =>
      { minX := JVal.jmin b.minX c.1, maxX := JVal.jmax b.maxX c.2.1
        minZ := JVal.jmin b.minZ c.2.2.1, maxZ := JVal.jmax b.maxZ c.2.2.2 })
    { minX := c.1, maxX := c.2.1, minZ := c.2.2.1, maxZ := c.2.2.2 }

/-- `recalcBlockBounds(category)`: recompute the block's bounds as the
tight box over the category's building footprints; skip when the
category has no block, no buildings, or when no edge moved by at least
`eps = 0.01`. -/
def recalcBlockBounds (st : Scene) (cat : String) : Scene :=
  match alGet st.blocks cat with
  | none => st
  | some blk =>
      let ms := st.projects.filter fun p => hasRender p && p.category = cat
      if ms.isEmpty then st
      else
        match ms.filterMap corners with
        | [] => st   -- unreachable: every filtered project has position and dimensions
        | c :: cs =>
            let nb := tightBox c cs
            let eps : ℚ := 1/100
            if JVal.jabsLt (JVal.jsub blk.bounds.minX nb.minX) eps &&
               JVal.jabsLt (JVal.jsub blk.bounds.maxX nb.maxX) eps &&
               JVal.jabsLt (JVal.jsub blk.bounds.minZ nb.minZ) eps &&
               JVal.jabsLt (JVal.jsub blk.bounds.maxZ nb.maxZ) eps then st
            else { st with blocks := alSet st.blocks cat { blk with bounds := nb } }

/-- `moveSingleBuilding`: translate one building (identified by its
project's path), its project record and satellite objects, then
recompute the owning category's block bounds. -/
def moveSingleBuilding (st : Scene) (path : String) (dx dz : ℚ) : Scene :=
  match st.projects.find? (fun p => p.path = path) with
  | none => st
  | some p =>
      let st' := { st with
        projects := st.projects.map fun q =>
          if q.path = path then moveProjXZ q dx dz else q }
      recalcBlockBounds st' p.category

/-- One step of `centerSingleBuildings` for one block entry.  At the
point this runs (right after `addBlockOutlines`), every block's bounds
are the rational category rectangles, so the `NaN` fallback branch is
unreachable. -/
def centerOne (st : Scene) (cat : String) : Scene :=
  match alGet st.blocks cat with
  | none => st
  | some blk =>
      match st.projects.filter (fun p => hasRender p && p.category = cat) with
      | [p] =>
          match p.position, p.dimensions with
          | some pos, some _ =>
              let cx := JVal.jhalf (JVal.jadd blk.bounds.minX blk.bounds.maxX)
              let cz := JVal.jhalf (JVal.jadd blk.bounds.minZ blk.bounds.maxZ)
              let dx := JVal.jsub cx (JVal.num pos.x)
              let dz := JVal.jsub cz (JVal.num pos.z)
              if JVal.jabsLt dx (1/10) && JVal.jabsLt dz (1/10) then st
              else
                match dx, dz with
                | JVal.num a, JVal.num b => moveSingleBuilding st p.path a b
                | _, _ => st
          | _, _ => st
      | _ => st

/-- `centerSingleBuildings`: iterate the block map (its key sequence is
fixed before the loop; the loop only mutates bounds and positions). -/
def centerSingleBuildings (st : Scene) : Scene :=
  (st.blocks.map Prod.fst).foldl centerOne st

/-- One entry of `applySavedPositions`: drop (and warn about) offsets
beyond the sanity bound `maxOffset = 500`; apply nonzero offsets via
`moveBlock` and record them in `blockOffsets`. -/
def applyOne (st : Scene) (e : String × (ℚ × ℚ)) : Scene :=
  if 500 < |e.2.1| ∨ 500 < |e.2.2| then
    { st with warnings := st.warnings ++ [e.1] }
  else if e.2.1 ≠ 0 ∨ e.2.2 ≠ 0 then
    let st' := moveBlock st e.1 e.2.1 e.2.2
    { st' with blockOffsets := alSet st'.blockOffsets e.1 e.2 }
  else st

/-- `applySavedPositions`: fold `applyOne` over the saved-positions map
(which the loop itself never mutates). -/
def applySavedPositions (st : Scene) : Scene :=
  st.savedPositions.foldl applyOne st

/-- `minX/maxX/minZ/maxZ` accumulation of `buildCity` over the projects
that have positions; `none` when no project is positioned (the JS
`minX !== Infinity` guard). -/
def positionExtent (P : List Proj) : Option (ℚ × ℚ × ℚ × ℚ) :=
  match P.filterMap Proj.position with
  | [] => none
  | a :: rest =>
      some (rest.foldl (fun m q => min m q.x) a.x,
            rest.foldl (fun m q => max m q.x) a.x,
            rest.foldl (fun m q => min m q.z) a.z,
            rest.foldl (fun m q => max m q.z) a.z)

/-- The centering pass of `buildCity`: translate every positioned project
and every district's bounds by the midpoint of the occupied extent. -/
def centerLayout (P : List Proj) (D : List (String × District)) :
    List Proj × List (String × District) :=
  match positionExtent P with
  | none => (P, D)
  | some ext =>
      let ox := (ext.1 + ext.2.1) / 2
      let oz := (ext.2.2.1 + ext.2.2.2) / 2
      (P.map fun p => moveProjXZ p (-ox) (-oz),
       D.map fun e => (e.1, { e.2 with bounds :=
         { e.2.bounds with x := e.2.bounds.x - ox, z := e.2.bounds.z - oz } }))

/-- The category-bounds accumulation of `addBlockOutlines`: union of the
district rectangles per category, in first-occurrence order. -/
def addCatBounds (acc : List (String × (ℚ × ℚ × ℚ × ℚ))) (d : District) :
    List (String × (ℚ × ℚ × ℚ × ℚ)) :=
  let nb := (d.bounds.x, d.bounds.x + d.bounds.width, d.bounds.z, d.bounds.z + d.bounds.depth)
  match alGet acc d.category with
  | none => acc ++ [(d.category, nb)]
  | some cb =>
      alSet acc d.category
        (min cb.1 nb.1, max cb.2.1 nb.2.1, min cb.2.2.1 nb.2.2.1, max cb.2.2.2 nb.2.2.2)

/-- `addBlockOutlines`, reduced to the data it stores: one block per
category with the category's united district rectangle as bounds. -/
def mkBlocks (D : List (String × District)) : List (String × Block) :=
  ((D.map Prod.snd).foldl addCatBounds []).map fun e =>
    (e.1, { category := e.1
            bounds := { minX := JVal.num e.2.1, maxX := JVal.num e.2.2.1
                        minZ := JVal.num e.2.2.2.1, maxZ := JVal.num e.2.2.2.2 } })

/-- `buildCity(projects, districts)`: clear the scene and the in-memory
block offsets, center the fresh layout on the origin, rebuild the block
map, center single-building categories, then reapply saved offsets.
The interaction-controller fields (`isDragging`, `draggedBlock`,
`movingBuilding`, `dragAccumulator`, `lastClick*`) are not touched
anywhere on this path — neither here nor in `clearCity`. -/
def buildCity (P : List Proj) (D : List (String × District)) (st : Scene) : Scene :=
  let PD := centerLayout P D
  let st2 := { st with projects := PD.1, blocks := mkBlocks PD.2, blockOffsets := [] }
  applySavedPositions (centerSingleBuildings st2)

/-- `triggerSave`: serialize one `BlockPosition` per block, defaulting to
offset `(0, 0)` when the category has no recorded offset. -/
def triggerSave (st : Scene) : List (String × (ℚ × ℚ)) :=
  st.blocks.map fun e => (e.1, (alGet st.blockOffsets e.1).getD (0, 0))

/-- The constructor's saved-positions load: fold the serialized list into
the `savedPositions` map. -/
def loadSaved (l : List (String × (ℚ × ℚ))) : List (String × (ℚ × ℚ)) :=
  l.foldl (fun acc e => alSet acc e.1 e.2) []

/-- A fresh `SceneManager` with the given persisted positions. -/
def initScene (saved : List (String × (ℚ × ℚ))) : Scene :=
  { projects := [], blocks := [], blockOffsets := [], savedPositions := loadSaved saved
    warnings := [], isDragging := false, draggedBlock := none, movingBuilding := none
    dragAccumulator := (0, 0), dragStartPoint := (0, 0), buildingDragStart := (0, 0)
    lastClickTime := 0, lastClicked := none }

/-- A full rebuild as the host views perform it:
`packDistricts` then `buildCity` on a fresh scene holding the persisted
offsets. -/
def fullRebuild (sq : ℚ → ℚ) (P : List Proj) (saved : List (String × (ℚ × ℚ))) : Scene :=
  let r := BinPacker.packDistricts sq P
  buildCity r.2 r.1 (initScene saved)

/-- `exitBuildingMoveMode` (visual resets omitted). -/
def exitBuildingMoveMode (st : Scene) : Scene := { st with movingBuilding := none }

/-- `onMouseMove`, restricted to the two drag branches (the remainder of
the handler only updates hover visuals and tooltips).  `ground` is the
ray/ground-plane intersection for the event. -/
def onMouseMove (st : Scene) (ground : ℚ × ℚ) : Scene :=
  if st.isDragging then
    match st.movingBuilding with
    | some b =>
        let ax := st.dragAccumulator.1 + (ground.1 - st.buildingDragStart.1)
        let az := st.dragAccumulator.2 + (ground.2 - st.buildingDragStart.2)
        let sx := snapToGrid ax
        let sz := snapToGrid az
        let st' :=
          if sx ≠ 0 ∨ sz ≠ 0 then
            { moveSingleBuilding st b sx sz with dragAccumulator := (ax - sx, az - sz) }
          else { st with dragAccumulator := (ax, az) }
        { st' with buildingDragStart := ground }
    | none =>
        match st.draggedBlock with
        | some cat =>
            let ax := st.dragAccumulator.1 + (ground.1 - st.dragStartPoint.1)
            let az := st.dragAccumulator.2 + (ground.2 - st.dragStartPoint.2)
            let sx := snapToGrid ax
            let sz := snapToGrid az
            let st' :=
              if sx ≠ 0 ∨ sz ≠ 0 then
                let st1 := moveBlock st cat sx sz
                let cur := (alGet st1.blockOffsets cat).getD (0, 0)
                { st1 with
                  blockOffsets := alSet st1.blockOffsets cat (cur.1 + sx, cur.2 + sz)
                  dragAccumulator := (ax - sx, az - sz) }
              else { st with dragAccumulator := (ax, az) }
            { st' with dragStartPoint := ground }
        | none => st
  else st

/-- `onMouseDown`.  The raycast results are inputs: `hitMoving` — whether
the click hit the building currently in move mode; `bHit` — the first
building hit; `hHit` — the category of the first drag-handle hitbox hit;
`ground` — the ground-plane point; `now` — `Date.now()`. -/
def onMouseDown (st : Scene) (hitMoving : Bool) (bHit : Option String)
    (hHit : Option String) (ground : ℚ × ℚ) (now : ℤ) : Scene :=
  let handleCheck : Scene → Scene := fun s =>
    match hHit with
    | some cat =>
        if alHas s.blocks cat then
          { s with isDragging := true, draggedBlock := some cat
                   dragAccumulator := (0, 0), dragStartPoint := ground }
        else s
    | none => s
  match st.movingBuilding with
  | some _ =>
      if !hitMoving then exitBuildingMoveMode st
      else { st with buildingDragStart := ground, isDragging := true
                     dragAccumulator := (0, 0) }
  | none =>
      match bHit with
      | some b =>
          if st.lastClicked = some b && now - st.lastClickTime < 400 then
            -- double-click detected: enterBuildingMoveMode, then return
            { st with movingBuilding := some b, lastClickTime := 0, lastClicked := none }
          else handleCheck { st with lastClickTime := now, lastClicked := some b }
      | none => handleCheck st

/-- `onMouseUp`: persist the dragged block's cumulative offset into the
in-memory `savedPositions` and leave the drag. -/
def onMouseUp (st : Scene) : Scene :=
  if st.isDragging then
    let st1 :=
      match st.draggedBlock with
      | some cat =>
          match alGet st.blockOffsets cat with
          | some off => { st with savedPositions := alSet st.savedPositions cat off }
          | none => st
      | none => st
    { st1 with isDragging := false, draggedBlock := none }
  else st

/-- `onKeyDown` for `Escape`: exit building move mode if active. -/
def onKeyEscape (st : Scene) : Scene :=
  if st.movingBuilding.isSome then exitBuildingMoveMode st else st

end Scene

/-- The net offset `applySavedPositions` applies to a category: the
stored entry if it passes the sanity bound and is nonzero, else zero. -/
def effOffset (l : List (String × (ℚ × ℚ))) (c : String) : ℚ × ℚ :=
  match alGet l c with
  | some o =>
      if 500 < |o.1| ∨ 500 < |o.2| then (0, 0)
      else if o.1 ≠ 0 ∨ o.2 ≠ 0 then o
      else (0, 0)
  | none => (0, 0)

/-- The per-project effect of `applySavedPositions` with store `l`:
rendered projects are translated by their category's effective offset. -/
def applyShift (l : List (String × (ℚ × ℚ))) (p : Proj) : Proj :=
  if Scene.hasRender p then
    Scene.moveProjXZ p (effOffset l p.category).1 (effOffset l p.category).2
  else p

/-! ## Grid alignment is decidable -/

theorem gridAligned_iff_den (q : ℚ) : (q / gridSize).den = 1 ↔ GridAligned q := by
  have h5 : gridSize ≠ 0 := by norm_num [gridSize]
  constructor
  · intro h
    have h2 : ((q / gridSize).num : ℚ) = q / gridSize := (Rat.den_eq_one_iff _).mp h
    exact ⟨(q / gridSize).num, by rw [h2, mul_comm]; exact (div_mul_cancel₀ q h5).symm⟩
  · rintro ⟨k, rfl⟩
    rw [mul_comm, mul_div_assoc, div_self h5, mul_one]
    exact Rat.den_intCast k

instance : DecidablePred GridAligned := fun q =>
  decidable_of_iff ((q / gridSize).den = 1) (gridAligned_iff_den q)

/-! ## Association-list lemmas -/

section AListLemmas

variable {κ : Type} {α : Type} [DecidableEq κ]

theorem alGet_cons_self {k : κ} {v : α} {l : List (κ × α)} :
    alGet ((k, v) :: l) k = some v := by simp [alGet]

theorem alGet_cons_ne {e : κ × α} {l : List (κ × α)} {k : κ} (h : e.1 ≠ k) :
    alGet (e :: l) k = alGet l k := by simp [alGet, h]

theorem alGet_cons_fst {e : κ × α} {l : List (κ × α)} :
    alGet (e :: l) e.1 = some e.2 := by cases e; exact alGet_cons_self

theorem alGet_eq_none_of_not_mem {l : List (κ × α)} {k : κ}
    (h : k ∉ l.map Prod.fst) : alGet l k = none := by
  induction l with
  | nil => rfl
  | cons e es ih =>
      simp only [List.map_cons, List.mem_cons] at h
      push_neg at h
      rw [alGet_cons_ne (by simpa using (Ne.symm h.1)), ih h.2]

theorem alGet_alSet_self {l : List (κ × α)} {k : κ} {v : α} :
    alGet (alSet l k v) k = some v := by
  induction l with
  | nil => simp [alSet, alGet]
  | cons e es ih =>
      by_cases h : e.1 = k
      · simp [alSet, alGet, h]
      · simp [alSet, alGet, h, ih]

theorem alGet_alSet_ne {l : List (κ × α)} {k k' : κ} {v : α} (h : k ≠ k') :
    alGet (alSet l k v) k' = alGet l k' := by
  induction l with
  | nil => simp [alSet, alGet, h]
  | cons e es ih =>
      by_cases he : e.1 = k
      · simp [alSet, alGet, he, h, he ▸ h]
      · by_cases he' : e.1 = k'
        · simp [alSet, alGet, he, he', Ne.symm h]
        · simp [alSet, alGet, he, he', ih]

theorem mem_of_alGet_eq_some {l : List (κ × α)} {k : κ} {v : α}
    (h : alGet l k = some v) : (k, v) ∈ l := by
  induction l with
  | nil => simp [alGet] at h
  | cons e es ih =>
      by_cases he : e.1 = k
      · rw [alGet, if_pos he] at h
        have he2 : e = (k, v) := by
          cases e
          simp_all [Prod.ext_iff]
        subst he2
        exact List.mem_cons_self _ _
      · rw [alGet_cons_ne he] at h
        exact List.mem_cons_of_mem _ (ih h)

theorem isSome_alGet_of_mem {l : List (κ × α)} {k : κ} {v : α}
    (h : (k, v) ∈ l) : (alGet l k).isSome := by
  induction l with
  | nil => simp at h
  | cons e es ih =>
      rcases List.mem_cons.mp h with h1 | h2
      · simp [alGet, ← h1]
      · by_cases he : e.1 = k
        · simp [alGet, he]
        · rw [alGet_cons_ne he]
          exact ih h2

end AListLemmas

/-! ## Small structural lemmas about projects -/

theorem moveProjXZ_zero (p : Proj) : Scene.moveProjXZ p 0 0 = p := by
  cases p with
  | mk path cat stage prio scope pos dims =>
      cases pos <;> simp [Scene.moveProjXZ]

theorem moveProjXZ_moveProjXZ (p : Proj) (a b c d : ℚ) :
    Scene.moveProjXZ (Scene.moveProjXZ p a b) c d = Scene.moveProjXZ p (a + c) (b + d) := by
  cases p with
  | mk path cat stage prio scope pos dims =>
      cases pos <;> simp [Scene.moveProjXZ] <;> constructor <;> ring

@[simp] theorem category_moveProjXZ (p : Proj) (a b : ℚ) :
    (Scene.moveProjXZ p a b).category = p.category := rfl

@[simp] theorem path_moveProjXZ (p : Proj) (a b : ℚ) :
    (Scene.moveProjXZ p a b).path = p.path := rfl

@[simp] theorem hasRender_moveProjXZ (p : Proj) (a b : ℚ) :
    Scene.hasRender (Scene.moveProjXZ p a b) = Scene.hasRender p := by
  cases p with
  | mk path cat stage prio scope pos dims =>
      cases pos <;> simp [Scene.moveProjXZ, Scene.hasRender]

/-! ## The `applySavedPositions` fold, characterized -/

theorem effOffset_cons_self {e : String × (ℚ × ℚ)} {l : List (String × (ℚ × ℚ))} :
    effOffset (e :: l) e.1 =
      (if 500 < |e.2.1| ∨ 500 < |e.2.2| then (0, 0)
       else if e.2.1 ≠ 0 ∨ e.2.2 ≠ 0 then e.2 else (0, 0)) := by
  cases e; simp [effOffset, alGet]

theorem effOffset_cons_ne {e : String × (ℚ × ℚ)} {l : List (String × (ℚ × ℚ))} {c : String}
    (h : e.1 ≠ c) : effOffset (e :: l) c = effOffset l c := by
  simp [effOffset, alGet_cons_ne h]

theorem effOffset_nil (c : String) : effOffset [] c = (0, 0) := rfl

theorem applyShift_nil (p : Proj) : applyShift [] p = p := by
  simp [applyShift, effOffset_nil, moveProjXZ_zero]

/-- `applyOne` never touches `savedPositions`. -/
theorem savedPositions_applyOne (st : Scene) (e : String × (ℚ × ℚ)) :
    (Scene.applyOne st e).savedPositions = st.savedPositions := by
  unfold Scene.applyOne Scene.moveBlock
  split <;> [skip; split] <;> rfl

/-- `applyOne` preserves the block map's key sequence. -/
theorem blocks_fst_applyOne (st : Scene) (e : String × (ℚ × ℚ)) :
    (Scene.applyOne st e).blocks.map Prod.fst = st.blocks.map Prod.fst := by
  unfold Scene.applyOne Scene.moveBlock
  split
  · rfl
  · split
    · simp only [List.map_map]
      apply List.map_congr_left
      intro b _
      by_cases h : b.1 = e.1 <;> simp [h]
    · rfl

/-- Projects after the `applySavedPositions` fold: every rendered project
is translated by its category's effective offset (keys must be unique, as
they are for any JS `Map`). -/
theorem projects_applyFold (l : List (String × (ℚ × ℚ))) (st : Scene)
    (h : (l.map Prod.fst).Nodup) :
    (l.foldl Scene.applyOne st).projects = st.projects.map (applyShift l) := by
  induction l generalizing st with
  | nil =>
      simp only [List.foldl_nil]
      exact ((List.map_congr_left fun p _ => applyShift_nil p).trans (List.map_id _)).symm
  | cons e es ih =>
      simp only [List.map_cons, List.nodup_cons] at h
      rw [List.foldl_cons, ih _ h.2]
      have hes : alGet es e.1 = none := alGet_eq_none_of_not_mem h.1
      unfold Scene.applyOne
      split
      · next hx =>
          simp only
          apply List.map_congr_left
          intro p _
          by_cases hc : e.1 = p.category
          · rw [applyShift, applyShift, ← hc, effOffset_cons_self, if_pos hx, effOffset, hes]
          · rw [applyShift, applyShift, effOffset_cons_ne hc]
      · next hx =>
          split
          · next hz =>
              simp only [Scene.moveBlock, List.map_map]
              apply List.map_congr_left
              intro p _
              simp only [Function.comp_apply]
              by_cases hc : p.category = e.1
              · have h1 : effOffset (e :: es) e.1 = e.2 := by
                  rw [effOffset_cons_self, if_neg hx, if_pos hz]
                have h2 : effOffset es e.1 = (0, 0) := by rw [effOffset, hes]
                by_cases hr : Scene.hasRender p
                · simp [hr, hc, applyShift, h1, h2, moveProjXZ_zero]
                · simp [hr, applyShift]
              · have hcd : decide (p.category = e.1) = false := by simp [hc]
                simp [hcd, applyShift, effOffset_cons_ne fun hh => hc hh.symm]
          · next hz =>
              apply List.map_congr_left
              intro p _
              by_cases hc : e.1 = p.category
              · rw [applyShift, applyShift, ← hc, effOffset_cons_self, effOffset, hes]
                push_neg at hz
                simp [hz.1, hz.2]
              · rw [applyShift, applyShift, effOffset_cons_ne hc]

/-- Warnings after the fold: original warnings plus one per entry beyond
the sanity bound, in store order. -/
theorem warnings_applyFold (l : List (String × (ℚ × ℚ))) (st : Scene) :
    (l.foldl Scene.applyOne st).warnings =
      st.warnings ++
        (l.filter fun e => decide (500 < |e.2.1| ∨ 500 < |e.2.2|)).map Prod.fst := by
  induction l generalizing st with
  | nil => simp
  | cons e es ih =>
      rw [List.foldl_cons, ih]
      unfold Scene.applyOne
      split
      · next hx => simp [hx, List.append_assoc]
      · next hx =>
          split
          · simp [Scene.moveBlock, hx]
          · simp [hx]

/-- Recorded block offsets after the fold. -/
theorem blockOffsets_applyFold (l : List (String × (ℚ × ℚ))) (st : Scene)
    (h : (l.map Prod.fst).Nodup) (c : String) :
    alGet (l.foldl Scene.applyOne st).blockOffsets c =
      (match alGet l c with
       | some o =>
         if 500 < |o.1| ∨ 500 < |o.2| then alGet st.blockOffsets c
         else if o.1 ≠ 0 ∨ o.2 ≠ 0 then some o
         else alGet st.blockOffsets c
       | none => alGet st.blockOffsets c) := by
  induction l generalizing st with
  | nil => simp [alGet]
  | cons e es ih =>
      simp only [List.map_cons, List.nodup_cons] at h
      rw [List.foldl_cons, ih _ h.2]
      have hes : alGet es e.1 = none := alGet_eq_none_of_not_mem h.1
      by_cases hc : e.1 = c
      · subst hc
        simp only [alGet_cons_fst, hes]
        by_cases hx : 500 < |e.2.1| ∨ 500 < |e.2.2|
        · simp [Scene.applyOne, hx]
        · by_cases hz : e.2.1 ≠ 0 ∨ e.2.2 ≠ 0
          · simp [Scene.applyOne, hx, hz, Scene.moveBlock, alGet_alSet_self]
          · push_neg at hz
            simp only [Scene.applyOne, hz.1, hz.2]
            norm_num
      · rw [alGet_cons_ne hc]
        have hone : alGet (Scene.applyOne st e).blockOffsets c = alGet st.blockOffsets c := by
          by_cases hx : 500 < |e.2.1| ∨ 500 < |e.2.2|
          · simp [Scene.applyOne, hx]
          · by_cases hz : e.2.1 ≠ 0 ∨ e.2.2 ≠ 0
            · simp [Scene.applyOne, hx, hz, Scene.moveBlock, alGet_alSet_ne hc]
            · push_neg at hz
              simp only [Scene.applyOne, hz.1, hz.2]
              norm_num
        rw [hone]

/-- `savedPositions` is unchanged by the whole fold. -/
theorem savedPositions_applyFold (l : List (String × (ℚ × ℚ))) (st : Scene) :
    (l.foldl Scene.applyOne st).savedPositions = st.savedPositions := by
  induction l generalizing st with
  | nil => rfl
  | cons e es ih => rw [List.foldl_cons, ih, savedPositions_applyOne]

/-- The block-map key sequence is unchanged by the whole fold. -/
theorem blocks_fst_applyFold (l : List (String × (ℚ × ℚ))) (st : Scene) :
    (l.foldl Scene.applyOne st).blocks.map Prod.fst = st.blocks.map Prod.fst := by
  induction l generalizing st with
  | nil => rfl
  | cons e es ih => rw [List.foldl_cons, ih, blocks_fst_applyOne]

/-! ## Concrete fixtures

`sqConst5` stands in for `Math.sqrt` in closed scenarios whose scopes are
all `25` (where the real square root is exactly `5`); `sqConst0`
likewise for scope `0`. -/

def sqConst5 : ℚ → ℚ := fun _ => 5
def sqConst0 : ℚ → ℚ := fun _ => 0

/-- An entity as delivered by the parser (no layout data yet). -/
def mkEntity (path cat stage prio : String) (scope : Option ℚ) : Proj :=
  ⟨path, cat, stage, prio, scope, none, none⟩

def entA : Proj := mkEntity "a" "c" "active" "high" (some 25)
def entB : Proj := mkEntity "b" "c" "active" "high" (some 25)
def pairList : List Proj := [entA, entB]

/-- The scene after an initial rebuild of the two-entity city with no
persisted offsets. -/
def sceneR0 : Scene := Scene.fullRebuild sqConst5 pairList []

end Hypernovum

namespace Hypernovum

open BinPacker Scene

/-! ## C2 — layout under permutation -/

/-- C2, counterexample: permuting two equal-priority members of one
district swaps their layout slots, so the district map and the position
of entity `"a"` both change — the layout is *not* invariant under
arbitrary reordering of the input list. -/
theorem C2_pack_not_permutation_invariant :
    (packDistricts sqConst5 [entA, entB]).1 ≠ (packDistricts sqConst5 [entB, entA]).1 ∧
    ((packDistricts sqConst5 [entA, entB]).2.find? fun p => p.path = "a").map Proj.position ≠
      ((packDistricts sqConst5 [entB, entA]).2.find? fun p => p.path = "a").map Proj.position := by
  with_unfolding_all decide

/-! ## C3 — grid-multiple invariant -/

def entM : Proj := mkEntity "m" "c" "active" "medium" (some 25)

/-- C3, counterexample: committed entity data is *not* all grid-aligned.
A `medium` building's height is `3 * 2.5 = 7.5`, and after `buildCity`'s
origin-centering the committed positions of the two-entity city are
`±2.5` — neither is a multiple of `GridSize = 5`. -/
theorem C3_dimensions_and_centered_positions_not_aligned :
    ((packDistricts sqConst5 [entM]).2.map fun p => p.dimensions.map Dims.height) =
      [some (15/2)] ∧
    ¬ GridAligned (15/2) ∧
    (sceneR0.projects.map fun p => p.position.map Pos.x) = [some (-5/2), some (5/2)] ∧
    ¬ GridAligned (-5/2) := by
  with_unfolding_all decide

/-! ## C4 — bounds invariant -/

/-- `sceneR0` after double-clicking entity `"a"` (arming move mode),
pressing on it, and committing a one-grid-step entity drag of `(5, 0)`. -/
def sceneEntityMoved : Scene :=
  Scene.onMouseMove
    (Scene.onMouseDown
      (Scene.onMouseDown
        (Scene.onMouseDown sceneR0 false (some "a") none (0, 0) 1000)
        false (some "a") none (0, 0) 1100)
      true (some "a") none (0, 0) 1200)
    (5, 0)

/-- C4, counterexample: after a committed single-entity move the stored
block bounds are the *tight* member-footprint box `[3/2, 7/2] × [−1, 1]`
(both members sit at `(5/2, 0)` with width/depth 2), not that box
expanded by the padding constant 3 and snapped to the grid (which would
be `[0, 5] × [−5, 5]`); the padding is applied only to the rendered
outline. -/
theorem C4_bounds_are_tight_not_padded_snapped :
    (sceneEntityMoved.projects.map fun p => p.position) =
      [some ⟨5/2, 0⟩, some ⟨5/2, 0⟩] ∧
    (sceneEntityMoved.projects.map fun p => p.dimensions.map Dims.width) =
      [some (JVal.num 2), some (JVal.num 2)] ∧
    (alGet sceneEntityMoved.blocks "c").map Block.bounds =
      some ⟨JVal.num (3/2), JVal.num (7/2), JVal.num (-1), JVal.num 1⟩ ∧
    (alGet sceneEntityMoved.blocks "c").map Block.bounds ≠
      some ⟨JVal.num (snapToGrid (3/2 - 3)), JVal.num (snapToGrid (7/2 + 3)),
            JVal.num (snapToGrid (-1 - 3)), JVal.num (snapToGrid (1 + 3))⟩ := by
  with_unfolding_all decide

/-! ## C5 — rebuild arriving mid-drag -/

/-- A district drag in progress on `sceneR0` with 2 world units of
sub-grid movement sitting in the accumulator. -/
def sceneMidDrag : Scene :=
  Scene.onMouseMove (Scene.onMouseDown sceneR0 false none (some "c") (0, 0) 0) (2, 2)

/-- A fresh layout for a disjoint entity set (category `"d"` only). -/
def rebuildOther : List (String × District) × List Proj :=
  packDistricts sqConst5 [mkEntity "o" "d" "active" "high" (some 25)]

/-- C5: `buildCity` (and `clearCity`) never touch the interaction state.
A rebuild arriving mid-drag is neither deferred nor aborted: afterwards
the controller is still in the dragging state, still references the
dragged block's category — which no longer exists in the rebuilt block
map — and still holds the unsaved accumulator; likewise an armed
building-move session survives a rebuild that removed the building. -/
theorem C5_rebuild_mid_drag_keeps_stale_drag_state :
    sceneMidDrag.isDragging = true ∧
    sceneMidDrag.draggedBlock = some "c" ∧
    sceneMidDrag.dragAccumulator = (2, 2) ∧
    (Scene.buildCity rebuildOther.2 rebuildOther.1 sceneMidDrag).isDragging = true ∧
    (Scene.buildCity rebuildOther.2 rebuildOther.1 sceneMidDrag).draggedBlock = some "c" ∧
    (Scene.buildCity rebuildOther.2 rebuildOther.1 sceneMidDrag).dragAccumulator = (2, 2) ∧
    alGet (Scene.buildCity rebuildOther.2 rebuildOther.1 sceneMidDrag).blocks "c" = none ∧
    sceneEntityMoved.movingBuilding = some "a" ∧
    (Scene.buildCity rebuildOther.2 rebuildOther.1 sceneEntityMoved).movingBuilding = some "a" ∧
    ((Scene.buildCity rebuildOther.2 rebuildOther.1 sceneEntityMoved).projects.map
      fun p => p.path) = ["o"] := by
  with_unfolding_all decide

/-! ## C6 — offset round-trip -/

/-- `sceneR0` after dragging district `"c"` 600 world units right in one
committed step and releasing the pointer. -/
def sceneDragged600 : Scene :=
  Scene.onMouseUp
    (Scene.onMouseMove (Scene.onMouseDown sceneR0 false none (some "c") (0, 0) 0) (600, 0))

set_option maxRecDepth 8000 in
/-- C6, counterexample: positions before a rebuild are *not* always
reproduced by `save → load → rebuild`.  A committed drag offset of 600
exceeds the 500-unit sanity bound: it is serialized faithfully but
discarded on reload with a warning, so the rebuilt district returns to
its default position while the pre-rebuild one sat 600 units away. -/
theorem C6_roundtrip_fails_beyond_sanity_bound :
    (sceneDragged600.projects.map fun p => (p.path, p.position)) =
      [("a", some ⟨1195/2, 0⟩), ("b", some ⟨1205/2, 0⟩)] ∧
    Scene.triggerSave sceneDragged600 = [("c", (600, 0))] ∧
    ((Scene.fullRebuild sqConst5 pairList (Scene.triggerSave sceneDragged600)).projects.map
      fun p => (p.path, p.position)) =
      [("a", some ⟨-5/2, 0⟩), ("b", some ⟨5/2, 0⟩)] ∧
    ((Scene.fullRebuild sqConst5 pairList (Scene.triggerSave sceneDragged600)).projects.map
      fun p => (p.path, p.position)) ≠
      (sceneDragged600.projects.map fun p => (p.path, p.position)) ∧
    (Scene.fullRebuild sqConst5 pairList (Scene.triggerSave sceneDragged600)).warnings =
      ["c"] := by
  with_unfolding_all decide

/-! ## C7 — double-click arming -/

/-- C7: double-click detection.  From a clean controller, a first
pointer-down on building `b` records it with its click time; a second
pointer-down on `b` strictly less than 400 ms later enters move mode,
while one at 400 ms or later does not and merely re-records the click; a
second pointer-down on a different building `b'` never arms move mode
and resets the per-entity timer to `b'`, regardless of timing. -/
theorem C7_double_click_threshold (st : Scene) (b b' : String) (g g' : ℚ × ℚ)
    (t₁ t₂ : ℤ) (hmove : st.movingBuilding = none) (hlast : st.lastClicked = none) :
    (Scene.onMouseDown st false (some b) none g t₁).lastClicked = some b ∧
    (Scene.onMouseDown st false (some b) none g t₁).lastClickTime = t₁ ∧
    (Scene.onMouseDown st false (some b) none g t₁).movingBuilding = none ∧
    (t₂ - t₁ < 400 →
      (Scene.onMouseDown (Scene.onMouseDown st false (some b) none g t₁)
        false (some b) none g' t₂).movingBuilding = some b) ∧
    (400 ≤ t₂ - t₁ →
      (Scene.onMouseDown (Scene.onMouseDown st false (some b) none g t₁)
        false (some b) none g' t₂).movingBuilding = none ∧
      (Scene.onMouseDown (Scene.onMouseDown st false (some b) none g t₁)
        false (some b) none g' t₂).lastClicked = some b ∧
      (Scene.onMouseDown (Scene.onMouseDown st false (some b) none g t₁)
        false (some b) none g' t₂).lastClickTime = t₂) ∧
    (b' ≠ b →
      (Scene.onMouseDown (Scene.onMouseDown st false (some b) none g t₁)
        false (some b') none g' t₂).movingBuilding = none ∧
      (Scene.onMouseDown (Scene.onMouseDown st false (some b) none g t₁)
        false (some b') none g' t₂).lastClicked = some b' ∧
      (Scene.onMouseDown (Scene.onMouseDown st false (some b) none g t₁)
        false (some b') none g' t₂).lastClickTime = t₂) := by
  simp only [Scene.onMouseDown, hmove, hlast]
  refine ⟨rfl, rfl, rfl, ?_, ?_, ?_⟩
  · intro h
    simp [show (some b = some b) = True by simp, h]
  · intro h
    have : ¬ (t₂ - t₁ < 400) := by omega
    simp [this]
  · intro h
    have hbb : ¬ (b = b') := fun hh => h hh.symm
    simp [hbb]

/-- C7, witness: with the 400 ms threshold, clicks on `"a"` at times 1000
then 1300 arm move mode; at 1000 then 1500 they do not; a second click on
`"b"` at 1100 resets the timer to `"b"` without arming. -/
theorem C7_double_click_threshold_witness :
    (Scene.onMouseDown (Scene.onMouseDown (Scene.initScene []) false (some "a") none (0, 0) 1000)
      false (some "a") none (0, 0) 1300).movingBuilding = some "a" ∧
    (Scene.onMouseDown (Scene.onMouseDown (Scene.initScene []) false (some "a") none (0, 0) 1000)
      false (some "a") none (0, 0) 1500).movingBuilding = none ∧
    (Scene.onMouseDown (Scene.onMouseDown (Scene.initScene []) false (some "a") none (0, 0) 1000)
      false (some "b") none (0, 0) 1100).lastClicked = some "b" := by
  refine ⟨?_, ?_, ?_⟩
  · exact (C7_double_click_threshold (Scene.initScene []) "a" "b" (0, 0) (0, 0) 1000 1300
      rfl rfl).2.2.2.1 (by decide)
  · exact ((C7_double_click_threshold (Scene.initScene []) "a" "b" (0, 0) (0, 0) 1000 1500
      rfl rfl).2.2.2.2.1 (by decide)).1
  · exact ((C7_double_click_threshold (Scene.initScene []) "a" "b" (0, 0) (0, 0) 1000 1100
      rfl rfl).2.2.2.2.2 (by decide)).2.1

/-! ## C1 — district drag: snapping and the fractional accumulator -/

theorem snapToGrid_aligned (v : ℚ) : GridAligned (snapToGrid v) :=
  ⟨jsRound (v / gridSize), by rw [snapToGrid, mul_comm]⟩

theorem GridAligned.add {a b : ℚ} : GridAligned a → GridAligned b → GridAligned (a + b) := by
  rintro ⟨j, rfl⟩ ⟨k, rfl⟩
  exact ⟨j + k, by push_cast; ring⟩

theorem GridAligned.zero : GridAligned 0 := ⟨0, by norm_num⟩

/-- The remainder a snap leaves behind is always in `[−gridSize/2, gridSize/2)`. -/
theorem sub_snapToGrid_range (v : ℚ) :
    -(gridSize / 2) ≤ v - snapToGrid v ∧ v - snapToGrid v < gridSize / 2 := by
  have h5 : (gridSize : ℚ) ≠ 0 := by norm_num [gridSize]
  have hv : v / gridSize * gridSize = v := div_mul_cancel₀ v h5
  have h1 : ((⌊v / gridSize + 1/2⌋ : ℤ) : ℚ) ≤ v / gridSize + 1/2 := Int.floor_le _
  have h2 : v / gridSize + 1/2 < (⌊v / gridSize + 1/2⌋ : ℤ) + 1 := Int.lt_floor_add_one _
  rw [snapToGrid, jsRound]
  have hg : (gridSize : ℚ) = 5 := rfl
  constructor <;> nlinarith [h1, h2, hv, hg]

/-- If a value snaps to zero it lies in `[−gridSize/2, gridSize/2)`. -/
theorem snapToGrid_eq_zero_range (v : ℚ) (h : snapToGrid v = 0) :
    -(gridSize / 2) ≤ v ∧ v < gridSize / 2 := by
  have := sub_snapToGrid_range v
  rw [h, sub_zero] at this
  exact this

/-- The sum of a list of per-event deltas, axiswise. -/
def sumXZ (l : List (ℚ × ℚ)) : ℚ × ℚ := l.foldr (fun d s => (d.1 + s.1, d.2 + s.2)) (0, 0)

/-- The log of snapped deltas a block drag commits, replayed from the
same per-event arithmetic as `onMouseMove`'s block-drag branch:
accumulate the raw displacement, commit the rounded accumulator whenever
it is nonzero on either axis, subtract what was committed. -/
def dragCommits : (ℚ × ℚ) → (ℚ × ℚ) → List (ℚ × ℚ) → List (ℚ × ℚ)
  | _, _, [] => []
  | acc, last, pt :: pts =>
      let ax := acc.1 + (pt.1 - last.1)
      let az := acc.2 + (pt.2 - last.2)
      let sx := snapToGrid ax
      let sz := snapToGrid az
      if sx ≠ 0 ∨ sz ≠ 0 then (sx, sz) :: dragCommits (ax - sx, az - sz) pt pts
      else dragCommits (ax, az) pt pts

theorem sumXZ_cons (d : ℚ × ℚ) (l : List (ℚ × ℚ)) :
    sumXZ (d :: l) = (d.1 + (sumXZ l).1, d.2 + (sumXZ l).2) := rfl

/-- Every committed total is a multiple of the grid size. -/
theorem dragCommits_aligned :
    ∀ (pts : List (ℚ × ℚ)) (acc last : ℚ × ℚ),
      GridAligned (sumXZ (dragCommits acc last pts)).1 ∧
      GridAligned (sumXZ (dragCommits acc last pts)).2 := by
  intro pts
  induction pts with
  | nil => exact fun _ _ => ⟨GridAligned.zero, GridAligned.zero⟩
  | cons pt pts ih =>
      intro acc last
      rw [dragCommits]
      split
      · rw [sumXZ_cons]
        exact ⟨(snapToGrid_aligned _).add (ih _ _).1, (snapToGrid_aligned _).add (ih _ _).2⟩
      · exact ih _ _

theorem getLastD_cons {α : Type} (pt : α) (pts : List α) (d : α) :
    ((pt :: pts).getLast?.getD d) = pts.getLast?.getD pt := by
  cases pts with
  | nil => rfl
  | cons q qs =>
      rw [List.getLast?_cons_cons]
      obtain ⟨y, hy⟩ := Option.isSome_iff_exists.mp
        (List.getLast?_isSome.mpr (List.cons_ne_nil q qs))
      rw [hy]
      rfl

theorem dragCommits_cons (acc last pt : ℚ × ℚ) (pts : List (ℚ × ℚ)) :
    dragCommits acc last (pt :: pts) =
      if snapToGrid (acc.1 + (pt.1 - last.1)) ≠ 0 ∨
          snapToGrid (acc.2 + (pt.2 - last.2)) ≠ 0 then
        (snapToGrid (acc.1 + (pt.1 - last.1)), snapToGrid (acc.2 + (pt.2 - last.2))) ::
          dragCommits
            (acc.1 + (pt.1 - last.1) - snapToGrid (acc.1 + (pt.1 - last.1)),
             acc.2 + (pt.2 - last.2) - snapToGrid (acc.2 + (pt.2 - last.2))) pt pts
      else dragCommits (acc.1 + (pt.1 - last.1), acc.2 + (pt.2 - last.2)) pt pts := rfl

/-- Two grid-snapped translations of a category's members compose into
one. -/
theorem moveBlockShift_comp (c : String) (a b d e : ℚ) (P : List Proj) :
    (P.map fun p =>
        if Scene.hasRender p && p.category = c then Scene.moveProjXZ p a b else p).map
      (fun p =>
        if Scene.hasRender p && p.category = c then Scene.moveProjXZ p d e else p) =
      P.map fun p =>
        if Scene.hasRender p && p.category = c then Scene.moveProjXZ p (a + d) (b + e)
        else p := by
  rw [List.map_map]
  apply List.map_congr_left
  intro p _
  simp only [Function.comp_apply]
  by_cases hcond : (Scene.hasRender p && decide (p.category = c)) = true
  · simp [hcond, moveProjXZ_moveProjXZ]
  · simp only [Bool.not_eq_true] at hcond
    simp [hcond]

theorem shiftC_zero (c : String) (P : List Proj) :
    (P.map fun p =>
        if Scene.hasRender p && p.category = c then Scene.moveProjXZ p 0 0 else p) = P := by
  have hpt : ∀ p ∈ P,
      (if Scene.hasRender p && p.category = c then Scene.moveProjXZ p 0 0 else p) = p := by
    intro p _
    split
    · exact moveProjXZ_zero p
    · rfl
  exact (List.map_congr_left hpt).trans (List.map_id _)

/-- One district-drag event, described field by field: the controller
stays in drag mode, the drag start becomes the event's ground point, and
there is a grid-aligned committed delta `k` (the snapped accumulator, or
zero when nothing crossed a grid boundary) such that the accumulator
decreases by `k` on top of the raw displacement, the block's recorded
offset and every member position advance by `k`, the accumulator is
exactly a snap remainder on each axis, and `k` is the head contribution
of the commit log. -/
theorem dragStep (st : Scene) (c : String) (pt : ℚ × ℚ)
    (hdrag : st.isDragging = true) (hmov : st.movingBuilding = none)
    (hblk : st.draggedBlock = some c) :
    ∃ k : ℚ × ℚ,
      (Scene.onMouseMove st pt).isDragging = true ∧
      (Scene.onMouseMove st pt).movingBuilding = none ∧
      (Scene.onMouseMove st pt).draggedBlock = some c ∧
      (Scene.onMouseMove st pt).dragStartPoint = pt ∧
      GridAligned k.1 ∧ GridAligned k.2 ∧
      (Scene.onMouseMove st pt).dragAccumulator =
        (st.dragAccumulator.1 + (pt.1 - st.dragStartPoint.1) - k.1,
         st.dragAccumulator.2 + (pt.2 - st.dragStartPoint.2) - k.2) ∧
      (Scene.onMouseMove st pt).dragAccumulator =
        (st.dragAccumulator.1 + (pt.1 - st.dragStartPoint.1) -
           snapToGrid (st.dragAccumulator.1 + (pt.1 - st.dragStartPoint.1)),
         st.dragAccumulator.2 + (pt.2 - st.dragStartPoint.2) -
           snapToGrid (st.dragAccumulator.2 + (pt.2 - st.dragStartPoint.2))) ∧
      (alGet (Scene.onMouseMove st pt).blockOffsets c).getD (0, 0) =
        (((alGet st.blockOffsets c).getD (0, 0)).1 + k.1,
         ((alGet st.blockOffsets c).getD (0, 0)).2 + k.2) ∧
      (Scene.onMouseMove st pt).projects = st.projects.map (fun p =>
        if Scene.hasRender p && p.category = c then Scene.moveProjXZ p k.1 k.2 else p) ∧
      (∀ pts : List (ℚ × ℚ),
        sumXZ (dragCommits st.dragAccumulator st.dragStartPoint (pt :: pts)) =
          (k.1 + (sumXZ (dragCommits (Scene.onMouseMove st pt).dragAccumulator pt pts)).1,
           k.2 + (sumXZ (dragCommits (Scene.onMouseMove st pt).dragAccumulator pt pts)).2)) := by
  rw [Scene.onMouseMove, hdrag, hmov, hblk]
  simp only [if_true]
  split
  · next hcm =>
      refine ⟨(snapToGrid (st.dragAccumulator.1 + (pt.1 - st.dragStartPoint.1)),
               snapToGrid (st.dragAccumulator.2 + (pt.2 - st.dragStartPoint.2))),
        ?_, ?_, ?_, ?_, snapToGrid_aligned _, snapToGrid_aligned _, ?_, ?_, ?_, ?_, ?_⟩
      · simp [Scene.moveBlock, hdrag]
      · simp [Scene.moveBlock, hmov]
      · simp [Scene.moveBlock, hblk]
      · simp
      · rfl
      · rfl
      · simp [Scene.moveBlock, alGet_alSet_self]
      · simp [Scene.moveBlock]
      · intro pts
        rw [dragCommits_cons, if_pos hcm, sumXZ_cons]
  · next hcm =>
      push_neg at hcm
      refine ⟨(0, 0), by simp [hdrag], by simp [hmov], by simp [hblk], by simp,
        GridAligned.zero, GridAligned.zero, ?_, ?_, ?_, ?_, ?_⟩
      · simp
      · simp [hcm.1, hcm.2]
      · simp
      · simpa using (shiftC_zero c st.projects).symm
      · intro pts
        rw [dragCommits_cons, if_neg (by push_neg; exact hcm)]
        simp

/-- The full characterization of a district-drag event sequence: the
controller stays in district-drag mode, the drag start tracks the last
event, the accumulator plus the committed total equals the starting
accumulator plus the net ground-plane displacement, the block's cumulative
offset and every member's position advance by exactly the committed
total, and after at least one event the accumulator is a snap remainder
on each axis. -/
theorem dragFold_block (c : String) :
    ∀ (pts : List (ℚ × ℚ)) (st : Scene),
      st.isDragging = true → st.movingBuilding = none → st.draggedBlock = some c →
      ((pts.foldl Scene.onMouseMove st).isDragging = true ∧
       (pts.foldl Scene.onMouseMove st).movingBuilding = none ∧
       (pts.foldl Scene.onMouseMove st).draggedBlock = some c) ∧
      (pts.foldl Scene.onMouseMove st).dragStartPoint = pts.getLast?.getD st.dragStartPoint ∧
      ((pts.foldl Scene.onMouseMove st).dragAccumulator.1 +
          (sumXZ (dragCommits st.dragAccumulator st.dragStartPoint pts)).1 =
        st.dragAccumulator.1 + ((pts.getLast?.getD st.dragStartPoint).1 - st.dragStartPoint.1) ∧
       (pts.foldl Scene.onMouseMove st).dragAccumulator.2 +
          (sumXZ (dragCommits st.dragAccumulator st.dragStartPoint pts)).2 =
        st.dragAccumulator.2 + ((pts.getLast?.getD st.dragStartPoint).2 - st.dragStartPoint.2)) ∧
      (alGet (pts.foldl Scene.onMouseMove st).blockOffsets c).getD (0, 0) =
        (((alGet st.blockOffsets c).getD (0, 0)).1 +
            (sumXZ (dragCommits st.dragAccumulator st.dragStartPoint pts)).1,
         ((alGet st.blockOffsets c).getD (0, 0)).2 +
            (sumXZ (dragCommits st.dragAccumulator st.dragStartPoint pts)).2) ∧
      (pts.foldl Scene.onMouseMove st).projects = st.projects.map (fun p =>
        if Scene.hasRender p && p.category = c then
          Scene.moveProjXZ p
            (sumXZ (dragCommits st.dragAccumulator st.dragStartPoint pts)).1
            (sumXZ (dragCommits st.dragAccumulator st.dragStartPoint pts)).2
        else p) ∧
      (pts ≠ [] → ∃ v w : ℚ,
        (pts.foldl Scene.onMouseMove st).dragAccumulator =
          (v - snapToGrid v, w - snapToGrid w)) := by
  intro pts
  induction pts with
  | nil =>
      intro st h1 h2 h3
      exact ⟨⟨h1, h2, h3⟩, rfl, ⟨by simp [sumXZ, dragCommits], by simp [sumXZ, dragCommits]⟩,
        by simp [sumXZ, dragCommits],
        by simpa [sumXZ, dragCommits] using (shiftC_zero c st.projects).symm,
        by simp⟩
  | cons pt pts ih =>
      intro st h1 h2 h3
      obtain ⟨k, s1, s2, s3, s4, sk1, sk2, sacc, saccsnap, soff, sproj, ssum⟩ :=
        dragStep st c pt h1 h2 h3
      obtain ⟨⟨i1, i2, i3⟩, istart, ⟨ic1, ic2⟩, ioff, iproj, iacc⟩ :=
        ih (Scene.onMouseMove st pt) s1 s2 s3
      rw [s4] at istart ic1 ic2 ioff iproj
      have hacc1 : (Scene.onMouseMove st pt).dragAccumulator.1 =
          st.dragAccumulator.1 + (pt.1 - st.dragStartPoint.1) - k.1 := by rw [sacc]
      have hacc2 : (Scene.onMouseMove st pt).dragAccumulator.2 =
          st.dragAccumulator.2 + (pt.2 - st.dragStartPoint.2) - k.2 := by rw [sacc]
      rw [List.foldl_cons]
      refine ⟨⟨i1, i2, i3⟩, ?_, ⟨?_, ?_⟩, ?_, ?_, ?_⟩
      · rw [istart, getLastD_cons]
      · rw [getLastD_cons, ssum pts]
        dsimp only
        linarith [ic1, hacc1]
      · rw [getLastD_cons, ssum pts]
        dsimp only
        linarith [ic2, hacc2]
      · rw [ssum pts, ioff, soff]
        dsimp only
        simp only [Prod.mk.injEq]
        exact ⟨by ring, by ring⟩
      · rw [iproj, sproj, moveBlockShift_comp, ssum pts]
      · intro _
        rcases List.eq_nil_or_concat pts with hnil | ⟨l, a, hcc⟩
        · subst hnil
          simp only [List.foldl_nil]
          exact ⟨st.dragAccumulator.1 + (pt.1 - st.dragStartPoint.1),
            st.dragAccumulator.2 + (pt.2 - st.dragStartPoint.2), saccsnap⟩
        · subst hcc
          exact iacc (by simp)

/-- A grid multiple that lands a snap remainder on total 7 is forced to
be 5, with remainder 2. -/
theorem gridStep_seven {S A : ℚ} (hS : GridAligned S)
    (h1 : -(gridSize / 2) ≤ A) (h2 : A < gridSize / 2) (ht : A + S = 7) :
    S = 5 ∧ A = 2 := by
  obtain ⟨k, rfl⟩ := hS
  have hg : (gridSize : ℚ) = 5 := rfl
  rw [hg] at h1 h2 ht ⊢
  have hk0 : (0 : ℤ) < k := by
    have hq : (0 : ℚ) < (k : ℚ) := by linarith
    exact_mod_cast hq
  have hk2 : k < 2 := by
    have hq : (k : ℚ) < 2 := by linarith
    exact_mod_cast hq
  have hk : k = 1 := by omega
  subst hk
  push_cast at ht
  exact ⟨by push_cast; ring, by linarith⟩

/-- A grid multiple that lands a snap remainder on total 2 is forced to
be 0, with remainder 2. -/
theorem gridStep_two {S A : ℚ} (hS : GridAligned S)
    (h1 : -(gridSize / 2) ≤ A) (h2 : A < gridSize / 2) (ht : A + S = 2) :
    S = 0 ∧ A = 2 := by
  obtain ⟨k, rfl⟩ := hS
  have hg : (gridSize : ℚ) = 5 := rfl
  rw [hg] at h1 h2 ht ⊢
  have hk0 : (-1 : ℤ) < k := by
    have hq : (-1 : ℚ) < (k : ℚ) := by linarith
    exact_mod_cast hq
  have hk2 : k < 1 := by
    have hq : (k : ℚ) < 1 := by linarith
    exact_mod_cast hq
  have hk : k = 0 := by omega
  subst hk
  push_cast at ht
  exact ⟨by push_cast; ring, by linarith⟩

/-- C1: with GridSize 5, a district drag (isDragging, a dragged block, no
building move) starting from a zero accumulator whose pointer-move
sequence has net ground-plane displacement (7, 2) leaves the drag
accumulator at exactly (2, 2) and commits a snapped total of exactly
(5, 0): the block's stored cumulative offset advances by (5, 0) and every
rendered member of the district is translated by (5, 0).  Moreover, when
that displacement arrives as a single pointer move, the per-event commit
log (accumulate raw displacement, commit the rounded-to-grid accumulator
when nonzero, subtract it) is exactly one commit of (5, 0). -/
theorem C1_district_drag_commits_snapped_delta (st : Scene) (c : String)
    (pts : List (ℚ × ℚ))
    (hdrag : st.isDragging = true) (hmov : st.movingBuilding = none)
    (hblk : st.draggedBlock = some c) (hacc : st.dragAccumulator = (0, 0))
    (hne : pts ≠ [])
    (hdx : (pts.getLast?.getD st.dragStartPoint).1 = st.dragStartPoint.1 + 7)
    (hdz : (pts.getLast?.getD st.dragStartPoint).2 = st.dragStartPoint.2 + 2) :
    (pts.foldl Scene.onMouseMove st).dragAccumulator = (2, 2) ∧
    sumXZ (dragCommits st.dragAccumulator st.dragStartPoint pts) = (5, 0) ∧
    (alGet (pts.foldl Scene.onMouseMove st).blockOffsets c).getD (0, 0) =
      (((alGet st.blockOffsets c).getD (0, 0)).1 + 5,
       ((alGet st.blockOffsets c).getD (0, 0)).2) ∧
    (pts.foldl Scene.onMouseMove st).projects = st.projects.map (fun p =>
      if Scene.hasRender p && p.category = c then Scene.moveProjXZ p 5 0 else p) ∧
    dragCommits (0, 0) st.dragStartPoint
        [(st.dragStartPoint.1 + 7, st.dragStartPoint.2 + 2)] = [(5, 0)] := by
  obtain ⟨⟨-, -, -⟩, -, ⟨ic1, ic2⟩, ioff, iproj, iacc⟩ :=
    dragFold_block c pts st hdrag hmov hblk
  obtain ⟨v, w, hvw⟩ := iacc hne
  have hb1 := sub_snapToGrid_range v
  have hb2 := sub_snapToGrid_range w
  have halig := dragCommits_aligned pts st.dragAccumulator st.dragStartPoint
  have hA1 : (pts.foldl Scene.onMouseMove st).dragAccumulator.1 = v - snapToGrid v := by
    rw [hvw]
  have hA2 : (pts.foldl Scene.onMouseMove st).dragAccumulator.2 = w - snapToGrid w := by
    rw [hvw]
  have ht1 : (pts.foldl Scene.onMouseMove st).dragAccumulator.1 +
      (sumXZ (dragCommits st.dragAccumulator st.dragStartPoint pts)).1 = 7 := by
    rw [ic1, hdx, hacc]
    dsimp only
    ring
  have ht2 : (pts.foldl Scene.onMouseMove st).dragAccumulator.2 +
      (sumXZ (dragCommits st.dragAccumulator st.dragStartPoint pts)).2 = 2 := by
    rw [ic2, hdz, hacc]
    dsimp only
    ring
  obtain ⟨hS1, hA1v⟩ :=
    gridStep_seven halig.1 (by rw [hA1]; exact hb1.1) (by rw [hA1]; exact hb1.2) ht1
  obtain ⟨hS2, hA2v⟩ :=
    gridStep_two halig.2 (by rw [hA2]; exact hb2.1) (by rw [hA2]; exact hb2.2) ht2
  refine ⟨by simp [Prod.ext_iff, hA1v, hA2v], by simp [Prod.ext_iff, hS1, hS2],
    by rw [ioff, hS1, hS2]; norm_num, by rw [iproj, hS1, hS2], ?_⟩
  rw [dragCommits_cons]
  dsimp only
  have e1 : (0 : ℚ) + (st.dragStartPoint.1 + 7 - st.dragStartPoint.1) = 7 := by ring
  have e2 : (0 : ℚ) + (st.dragStartPoint.2 + 2 - st.dragStartPoint.2) = 2 := by ring
  have s7 : snapToGrid 7 = 5 := by with_unfolding_all decide
  have s2 : snapToGrid 2 = 0 := by with_unfolding_all decide
  rw [e1, e2, s7, s2, if_pos (Or.inl (by norm_num))]
  norm_num [dragCommits]

/-- A concrete drag session: mouse-down on the drag handle of district
"c" in the freshly built two-entity scene, so the controller enters
district-drag mode with a zero accumulator and start point (0, 0). -/
def stDownC1 : Scene := Scene.onMouseDown sceneR0 false none (some "c") (0, 0) 0

set_option maxRecDepth 8000 in
theorem C1_district_drag_commits_snapped_delta_witness :
    ([((7 : ℚ), (2 : ℚ))].foldl Scene.onMouseMove stDownC1).dragAccumulator = (2, 2) ∧
    sumXZ (dragCommits stDownC1.dragAccumulator stDownC1.dragStartPoint
      [((7 : ℚ), (2 : ℚ))]) = (5, 0) ∧
    (alGet ([((7 : ℚ), (2 : ℚ))].foldl Scene.onMouseMove stDownC1).blockOffsets "c").getD
        (0, 0) =
      (((alGet stDownC1.blockOffsets "c").getD (0, 0)).1 + 5,
       ((alGet stDownC1.blockOffsets "c").getD (0, 0)).2) ∧
    ([((7 : ℚ), (2 : ℚ))].foldl Scene.onMouseMove stDownC1).projects =
      stDownC1.projects.map (fun p =>
        if Scene.hasRender p && p.category = "c" then Scene.moveProjXZ p 5 0 else p) ∧
    dragCommits (0, 0) stDownC1.dragStartPoint
        [(stDownC1.dragStartPoint.1 + 7, stDownC1.dragStartPoint.2 + 2)] = [(5, 0)] :=
  C1_district_drag_commits_snapped_delta stDownC1 "c" [((7 : ℚ), (2 : ℚ))]
    (by with_unfolding_all decide) (by with_unfolding_all decide)
    (by with_unfolding_all decide) (by with_unfolding_all decide)
    (by with_unfolding_all decide) (by with_unfolding_all decide)
    (by with_unfolding_all decide)



/-! ## Layout totality and alignment machinery (C3, C9) -/

/-- A rectangle all four of whose fields are grid multiples. -/
def alignedRect (r : Rect) : Prop :=
  GridAligned r.x ∧ GridAligned r.z ∧ GridAligned r.width ∧ GridAligned r.depth

theorem gridSize_aligned : GridAligned gridSize := ⟨1, by norm_num⟩

theorem GridAligned.qmax {a b : ℚ} (ha : GridAligned a) (hb : GridAligned b) :
    GridAligned (max a b) := by
  rcases le_total a b with h | h
  · rw [max_eq_right h]; exact hb
  · rw [max_eq_left h]; exact ha

namespace BinPacker

/-- A project whose position/dimensions were written by some slot
assignment of `arrangeGridLayout`. -/
def SlotAssigned (sq : ℚ → ℚ) (p : Proj) : Prop :=
  ∃ x z j q, p = assignSlot sq x z j q

theorem priorityRank_cases (p : String) :
    priorityRank p = 0 ∨ priorityRank p = 1 ∨ priorityRank p = 2 ∨ priorityRank p = 3 := by
  unfold priorityRank
  repeat' split
  all_goals simp

theorem stageIdx_cases (s : String) :
    stageIdx s = -1 ∨ stageIdx s = 0 ∨ stageIdx s = 1 ∨ stageIdx s = 2 ∨ stageIdx s = 3 := by
  unfold stageIdx
  repeat' split
  all_goals simp

theorem mem_sortByPriority {b : TProj} {bs : List TProj} :
    b ∈ sortByPriority bs ↔ b ∈ bs := by
  simp only [sortByPriority, List.mem_append, List.mem_filter]
  constructor
  · rintro (((⟨h, -⟩ | ⟨h, -⟩) | ⟨h, -⟩) | ⟨h, -⟩) <;> exact h
  · intro h
    rcases priorityRank_cases b.2.priority with h0 | h1 | h2 | h3
    · exact Or.inl (Or.inl (Or.inl ⟨h, by simp [h0]⟩))
    · exact Or.inl (Or.inl (Or.inr ⟨h, by simp [h1]⟩))
    · exact Or.inl (Or.inr ⟨h, by simp [h2]⟩)
    · exact Or.inr ⟨h, by simp [h3]⟩

theorem mem_sortByStage {d : GroupE} {ds : List GroupE} :
    d ∈ sortByStage ds ↔ d ∈ ds := by
  simp only [sortByStage, List.mem_append, List.mem_filter]
  constructor
  · rintro ((((⟨h, -⟩ | ⟨h, -⟩) | ⟨h, -⟩) | ⟨h, -⟩) | ⟨h, -⟩) <;> exact h
  · intro h
    rcases stageIdx_cases d.stage with h0 | h1 | h2 | h3 | h4
    · exact Or.inl (Or.inl (Or.inl (Or.inl ⟨h, by simp [h0]⟩)))
    · exact Or.inl (Or.inl (Or.inl (Or.inr ⟨h, by simp [h1]⟩)))
    · exact Or.inl (Or.inl (Or.inr ⟨h, by simp [h2]⟩))
    · exact Or.inl (Or.inr ⟨h, by simp [h3]⟩)
    · exact Or.inr ⟨h, by simp [h4]⟩

theorem assignFrom_map_fst (sq : ℚ → ℚ) (x z : ℚ) :
    ∀ (n : Nat) (bs : List TProj), (assignFrom sq x z n bs).map Prod.fst = bs.map Prod.fst := by
  intro n bs
  induction bs generalizing n with
  | nil => rfl
  | cons b bs ih => simp [assignFrom, ih]

theorem mem_assignFrom (sq : ℚ → ℚ) (x z : ℚ) :
    ∀ (n : Nat) (bs : List TProj) (e : TProj), e ∈ assignFrom sq x z n bs →
      ∃ j q, (e.1, q) ∈ bs ∧ e.2 = assignSlot sq x z j q := by
  intro n bs
  induction bs generalizing n with
  | nil => intro e h; simp [assignFrom] at h
  | cons b bs ih =>
      intro e h
      simp only [assignFrom] at h
      rcases List.mem_cons.mp h with h | h
      · exact ⟨n, b.2, by simp [h], by rw [h]⟩
      · obtain ⟨j, q, hm, he⟩ := ih (n + 1) e h
        exact ⟨j, q, List.mem_cons_of_mem b hm, he⟩

theorem arrangeGridLayout_map_fst (sq : ℚ → ℚ) (bs : List TProj) (x z : ℚ) {b : TProj}
    (hb : b ∈ bs) : b.1 ∈ (arrangeGridLayout sq bs x z).map Prod.fst := by
  rw [arrangeGridLayout, assignFrom_map_fst]
  exact List.mem_map_of_mem Prod.fst (mem_sortByPriority.mpr hb)

theorem slotAssigned_of_mem_arrange (sq : ℚ → ℚ) (bs : List TProj) (x z : ℚ) {e : TProj}
    (he : e ∈ arrangeGridLayout sq bs x z) : SlotAssigned sq e.2 := by
  obtain ⟨j, q, -, hq⟩ := mem_assignFrom sq x z 0 _ e he
  exact ⟨x, z, j, q, hq⟩

theorem SlotAssigned.dims {sq : ℚ → ℚ} {p : Proj} (h : SlotAssigned sq p) :
    ∃ q d, p.position = some q ∧ p.dimensions = some d ∧
      d.width = jsBaseSize sq p.scope ∧ d.depth = jsBaseSize sq p.scope ∧
      d.height = calculateHeight p.priority := by
  obtain ⟨x, z, j, qq, rfl⟩ := h
  exact ⟨_, _, rfl, rfl, rfl, rfl, rfl⟩

theorem SlotAssigned.position_aligned {sq : ℚ → ℚ} {p : Proj} (h : SlotAssigned sq p) :
    ∀ q, p.position = some q → GridAligned q.x ∧ GridAligned q.z := by
  obtain ⟨x, z, j, qq, rfl⟩ := h
  intro q hq
  simp only [assignSlot, Option.some.injEq] at hq
  rw [← hq]
  exact ⟨snapToGrid_aligned _, snapToGrid_aligned _⟩

theorem jsBaseSize_none (sq : ℚ → ℚ) : jsBaseSize sq none = JVal.nan := rfl

theorem jsBaseSize_min_two (sq : ℚ → ℚ) (s : ℚ) (hs : ¬ s < 0) :
    ∃ w, jsBaseSize sq (some s) = JVal.num w ∧ 2 ≤ w := by
  refine ⟨max 2 (min 4 (sq s * (2/5))), ?_, le_max_left _ _⟩
  simp [jsBaseSize, hs, JVal.jmul, JVal.jmin, JVal.jmax]

/-- The entry `layoutCategory` emits for district `g` at cursor `(x, z)`. -/
def catEntry (sq : ℚ → ℚ) (g : GroupE) (x z : ℚ) : String × (District × List TProj) :=
  (g.key,
   ({ stage := g.stage, category := g.category
      buildings := (layoutDistrict sq g x z).1.map Prod.snd
      bounds := (layoutDistrict sq g x z).2.1 },
    (layoutDistrict sq g x z).1))

theorem layoutCategory_acc_prefix (sq : ℚ → ℚ) :
    ∀ (gs : List GroupE) (x z m : ℚ) (acc : List (String × (District × List TProj))),
      ∃ suf, (layoutCategory sq gs x z m acc).1 = acc ++ suf := by
  intro gs
  induction gs with
  | nil => exact fun x z m acc => ⟨[], by simp [layoutCategory]⟩
  | cons g gs ih =>
      intro x z m acc
      simp only [layoutCategory]
      obtain ⟨suf, hsuf⟩ := ih _ _ _ _
      rw [hsuf, List.append_assoc]
      exact ⟨_, rfl⟩

theorem layoutCategory_mem_acc (sq : ℚ → ℚ) (gs : List GroupE) (x z m : ℚ)
    (acc : List (String × (District × List TProj)))
    {e : String × (District × List TProj)} (he : e ∈ acc) :
    e ∈ (layoutCategory sq gs x z m acc).1 := by
  obtain ⟨suf, hsuf⟩ := layoutCategory_acc_prefix sq gs x z m acc
  rw [hsuf]
  exact List.mem_append_left _ he

theorem layoutCategory_entries_pred (sq : ℚ → ℚ)
    (Q : String × (District × List TProj) → Prop)
    (hQ : ∀ (g : GroupE) (x z : ℚ), GridAligned x → GridAligned z → Q (catEntry sq g x z)) :
    ∀ (gs : List GroupE) (x z m : ℚ) (acc : List (String × (District × List TProj))),
      GridAligned x → GridAligned z → (∀ e ∈ acc, Q e) →
      ∀ e ∈ (layoutCategory sq gs x z m acc).1, Q e := by
  intro gs
  induction gs with
  | nil => intro x z m acc _ _ hacc; simpa [layoutCategory] using hacc
  | cons g gs ih =>
      intro x z m acc hx hz hacc
      simp only [layoutCategory]
      refine ih _ _ _ _ (snapToGrid_aligned _) hz ?_
      intro e he
      rcases List.mem_append.mp he with he | he
      · exact hacc e he
      · obtain rfl := List.mem_singleton.mp he
        exact hQ g x z hx hz

theorem layoutCategory_coverage (sq : ℚ → ℚ) :
    ∀ (gs : List GroupE) {g : GroupE}, g ∈ gs →
      ∀ (x z m : ℚ) (acc : List (String × (District × List TProj))),
      ∀ tp ∈ g.buildings,
      ∃ e ∈ (layoutCategory sq gs x z m acc).1, tp.1 ∈ e.2.2.map Prod.fst := by
  intro gs
  induction gs with
  | nil => intro g hg; simp at hg
  | cons g0 gs ih =>
      intro g hg x z m acc tp htp
      simp only [layoutCategory]
      rcases List.mem_cons.mp hg with rfl | hg
      · refine ⟨catEntry sq g x z,
          layoutCategory_mem_acc sq gs _ _ _ _
            (List.mem_append_right acc (List.mem_singleton_self _)), ?_⟩
        exact arrangeGridLayout_map_fst sq g.buildings x z htp
      · exact ih hg _ _ _ _ tp htp

theorem layoutCategories_acc_prefix (sq : ℚ → ℚ) (groups : List GroupE) :
    ∀ (cs : List String) (z : ℚ) (acc : List (String × (District × List TProj))),
      ∃ suf, layoutCategories sq groups cs z acc = acc ++ suf := by
  intro cs
  induction cs with
  | nil => exact fun z acc => ⟨[], by simp [layoutCategories]⟩
  | cons c cs ih =>
      intro z acc
      simp only [layoutCategories]
      split
      · exact ih z acc
      · obtain ⟨suf1, hs1⟩ := layoutCategory_acc_prefix sq
          (sortByStage (groups.filter fun g => g.category = c)) gridSize z 0 acc
        obtain ⟨suf2, hs2⟩ := ih _ (layoutCategory sq
          (sortByStage (groups.filter fun g => g.category = c)) gridSize z 0 acc).1
        exact ⟨suf1 ++ suf2, by rw [hs2, hs1, List.append_assoc]⟩

theorem layoutCategories_mem_acc (sq : ℚ → ℚ) (groups : List GroupE) (cs : List String)
    (z : ℚ) (acc : List (String × (District × List TProj)))
    {e : String × (District × List TProj)} (he : e ∈ acc) :
    e ∈ layoutCategories sq groups cs z acc := by
  obtain ⟨suf, hsuf⟩ := layoutCategories_acc_prefix sq groups cs z acc
  rw [hsuf]
  exact List.mem_append_left _ he

theorem layoutCategories_entries_pred (sq : ℚ → ℚ) (groups : List GroupE)
    (Q : String × (District × List TProj) → Prop)
    (hQ : ∀ (g : GroupE) (x z : ℚ), GridAligned x → GridAligned z → Q (catEntry sq g x z)) :
    ∀ (cs : List String) (z : ℚ) (acc : List (String × (District × List TProj))),
      GridAligned z → (∀ e ∈ acc, Q e) →
      ∀ e ∈ layoutCategories sq groups cs z acc, Q e := by
  intro cs
  induction cs with
  | nil => intro z acc _ hacc; simpa [layoutCategories] using hacc
  | cons c cs ih =>
      intro z acc hz hacc
      simp only [layoutCategories]
      split
      · exact ih z acc hz hacc
      · exact ih _ _ (snapToGrid_aligned _)
          (layoutCategory_entries_pred sq Q hQ _ _ _ _ _ gridSize_aligned hz hacc)

theorem layoutCategories_coverage (sq : ℚ → ℚ) (groups : List GroupE) :
    ∀ (cs : List String) {g : GroupE}, g ∈ groups → g.category ∈ cs →
      ∀ (z : ℚ) (acc : List (String × (District × List TProj))),
      ∀ tp ∈ g.buildings,
      ∃ e ∈ layoutCategories sq groups cs z acc, tp.1 ∈ e.2.2.map Prod.fst := by
  intro cs
  induction cs with
  | nil => intro g _ hc; simp at hc
  | cons c cs ih =>
      intro g hg hc z acc tp htp
      simp only [layoutCategories]
      by_cases hcc : g.category = c
      · have hgf : g ∈ groups.filter fun g' => g'.category = c :=
          List.mem_filter.mpr ⟨hg, by simp [hcc]⟩
        have hni : ¬ ((groups.filter fun g' => g'.category = c).isEmpty = true) := by
          simp only [List.isEmpty_iff]
          intro h
          rw [h] at hgf
          exact absurd hgf (List.not_mem_nil g)
        rw [if_neg hni]
        obtain ⟨e, he, hkey⟩ := layoutCategory_coverage sq _
          (mem_sortByStage.mpr hgf) gridSize z 0 acc tp htp
        exact ⟨e, layoutCategories_mem_acc sq groups cs _ _ he, hkey⟩
      · have hcs : g.category ∈ cs := by
          rcases List.mem_cons.mp hc with h | h
          · exact absurd h hcc
          · exact h
        split
        · exact ih hg hcs z acc tp htp
        · exact ih hg hcs _ _ tp htp

theorem addToGroups_mono (gs : List GroupE) (tp : TProj) {g : GroupE} (hg : g ∈ gs) :
    ∃ g' ∈ addToGroups gs tp, g'.category = g.category ∧
      ∀ b ∈ g.buildings, b ∈ g'.buildings := by
  rw [addToGroups]
  split
  · refine ⟨if g.key = projKey tp.2 then { g with buildings := g.buildings ++ [tp] } else g,
      List.mem_map_of_mem _ hg, ?_, ?_⟩
    · split <;> rfl
    · split
      · exact fun b hb => List.mem_append_left _ hb
      · exact fun b hb => hb
  · exact ⟨g, List.mem_append_left _ hg, rfl, fun b hb => hb⟩

theorem addToGroups_self (gs : List GroupE) (tp : TProj) :
    ∃ g ∈ addToGroups gs tp, tp ∈ g.buildings ∧
      (g.category ∈ gs.map GroupE.category ∨ g.category = tp.2.category) := by
  rw [addToGroups]
  split
  · next hany =>
      obtain ⟨g0, hg0, hkey⟩ := List.any_eq_true.mp hany
      have hkey' : g0.key = projKey tp.2 := of_decide_eq_true hkey
      refine ⟨{ g0 with buildings := g0.buildings ++ [tp] }, ?_, ?_, ?_⟩
      · refine List.mem_map.mpr ⟨g0, hg0, ?_⟩
        dsimp only
        rw [if_pos hkey']
      · exact List.mem_append_right _ (List.mem_singleton_self tp)
      · exact Or.inl (show GroupE.category g0 ∈ _ from List.mem_map_of_mem _ hg0)
  · exact ⟨⟨projKey tp.2, tp.2.stage, tp.2.category, [tp]⟩,
      List.mem_append_right _ (List.mem_singleton_self _),
      List.mem_singleton_self tp, Or.inr rfl⟩

theorem addToGroups_categories (gs : List GroupE) (tp : TProj) :
    ∀ c ∈ (addToGroups gs tp).map GroupE.category,
      c ∈ gs.map GroupE.category ∨ c = tp.2.category := by
  intro c hc
  rw [addToGroups] at hc
  split at hc
  · rw [List.map_map] at hc
    obtain ⟨g, hg, hgc⟩ := List.mem_map.mp hc
    left
    rw [← hgc]
    simp only [Function.comp_apply]
    split
    · exact show GroupE.category g ∈ _ from List.mem_map_of_mem _ hg
    · exact List.mem_map_of_mem _ hg
  · rw [List.map_append] at hc
    rcases List.mem_append.mp hc with h | h
    · exact Or.inl h
    · exact Or.inr (List.mem_singleton.mp h)

theorem foldl_addToGroups_mono :
    ∀ (l : List TProj) (gs : List GroupE) {g : GroupE}, g ∈ gs →
      ∃ g' ∈ l.foldl addToGroups gs, g'.category = g.category ∧
        ∀ b ∈ g.buildings, b ∈ g'.buildings := by
  intro l
  induction l with
  | nil => exact fun gs _ hg => ⟨_, hg, rfl, fun b hb => hb⟩
  | cons tp l ih =>
      intro gs g hg
      rw [List.foldl_cons]
      obtain ⟨g1, hg1, hcat1, hsub1⟩ := addToGroups_mono gs tp hg
      obtain ⟨g2, hg2, hcat2, hsub2⟩ := ih _ hg1
      exact ⟨g2, hg2, hcat2.trans hcat1, fun b hb => hsub2 b (hsub1 b hb)⟩

theorem foldl_addToGroups_categories :
    ∀ (l : List TProj) (gs : List GroupE) {g : GroupE}, g ∈ l.foldl addToGroups gs →
      g.category ∈ gs.map GroupE.category ∨
        g.category ∈ l.map fun b => b.2.category := by
  intro l
  induction l with
  | nil => exact fun gs _ hg => Or.inl (List.mem_map_of_mem _ hg)
  | cons tp l ih =>
      intro gs g hg
      rw [List.foldl_cons] at hg
      rcases ih _ hg with h | h
      · rcases addToGroups_categories gs tp _ h with h' | h'
        · exact Or.inl h'
        · exact Or.inr (by rw [h']; exact List.mem_map_of_mem _ (List.mem_cons_self tp l))
      · exact Or.inr (by rw [List.map_cons]; exact List.mem_cons_of_mem _ h)

theorem foldl_addToGroups_coverage :
    ∀ (l : List TProj) (gs : List GroupE) {tp : TProj}, tp ∈ l →
      ∃ g ∈ l.foldl addToGroups gs, tp ∈ g.buildings := by
  intro l
  induction l with
  | nil => intro gs tp h; simp at h
  | cons tp0 l ih =>
      intro gs tp h
      rw [List.foldl_cons]
      rcases List.mem_cons.mp h with rfl | h
      · obtain ⟨g, hgmem, htp, -⟩ := addToGroups_self gs tp
        obtain ⟨g', hg', -, hsub⟩ := foldl_addToGroups_mono l _ hgmem
        exact ⟨g', hg', hsub tp htp⟩
      · exact ih _ h

theorem mem_sortedCategories {P : List Proj} {c : String} :
    c ∈ sortedCategories P ↔ c ∈ P.map Proj.category := by
  rw [sortedCategories, (List.perm_insertionSort _ _).mem_iff, List.mem_dedup]

theorem enum_map_snd_category (P : List Proj) :
    (P.enum.map fun b : TProj => b.2.category) = P.map Proj.category := by
  rw [show (fun b : TProj => b.2.category) = Proj.category ∘ Prod.snd from rfl,
    ← List.map_map, List.enum_map_snd]

/-- Every project written back by `packDistricts` carries a slot
assignment: totality of the layout. -/
theorem packDistricts_out_slots (sq : ℚ → ℚ) (P : List Proj) :
    ∀ p' ∈ (packDistricts sq P).2, SlotAssigned sq p' := by
  intro p' hp'
  simp only [packDistricts] at hp'
  obtain ⟨ip, hip, hpe⟩ := List.mem_map.mp hp'
  -- coverage: ip.1 is among the assigned tags
  obtain ⟨g, hg, htp⟩ := foldl_addToGroups_coverage P.enum [] hip
  have hcat : g.category ∈ sortedCategories P := by
    rcases foldl_addToGroups_categories P.enum [] hg with h | h
    · simp at h
    · rw [enum_map_snd_category] at h
      exact mem_sortedCategories.mpr h
  obtain ⟨e, he, hkey⟩ := layoutCategories_coverage sq _ (sortedCategories P)
    hg hcat gridSize [] ip htp
  -- hence the lookup finds an entry, and every entry is slot-assigned
  obtain ⟨tpx, htpx, htpx1⟩ := List.mem_map.mp hkey
  have htpflat : tpx ∈ ((layoutCategories sq (buildGroups P.enum) (sortedCategories P)
      gridSize []).map fun e => e.2.2).flatten :=
    List.mem_flatten.mpr ⟨e.2.2, List.mem_map_of_mem _ he, htpx⟩
  have hpair : ((ip.1, tpx.2) : TProj) ∈ ((layoutCategories sq (buildGroups P.enum)
      (sortedCategories P) gridSize []).map fun e => e.2.2).flatten := by
    rw [← htpx1]
    simpa using htpflat
  have hsome := isSome_alGet_of_mem hpair
  obtain ⟨pA, hpA⟩ := Option.isSome_iff_exists.mp hsome
  have hmemA := mem_of_alGet_eq_some hpA
  have hslot : SlotAssigned sq pA := by
    obtain ⟨ms, hms, hmemA'⟩ := List.mem_flatten.mp hmemA
    obtain ⟨e', he', he2⟩ := List.mem_map.mp hms
    have := layoutCategories_entries_pred sq (buildGroups P.enum)
      (fun e => ∀ tp ∈ e.2.2, SlotAssigned sq tp.2)
      (fun g x z _ _ => fun tp htp => slotAssigned_of_mem_arrange sq g.buildings x z htp)
      (sortedCategories P) gridSize [] gridSize_aligned (by simp) e' he'
    exact this (ip.1, pA) (by rw [← he2] at hmemA'; exact hmemA')
  rw [← hpe, hpA]
  exact hslot

end BinPacker

namespace BinPacker

theorem layoutDistrict_bounds_aligned (sq : ℚ → ℚ) (g : GroupE) (x z : ℚ)
    (hx : GridAligned x) (hz : GridAligned z) :
    alignedRect (layoutDistrict sq g x z).2.1 := by
  simp only [layoutDistrict]
  exact ⟨hx, hz, GridAligned.qmax (snapToGrid_aligned _) gridSize_aligned,
    GridAligned.qmax (snapToGrid_aligned _) gridSize_aligned⟩

end BinPacker

open BinPacker in
/-- C3 (amended): what the layout and the drag pipeline actually keep
grid-aligned.  Every district the bin packer emits has grid-multiple
bounds (x, z, width, depth), every position it assigns — on the district
members and on the written-back project list — is a grid multiple, and
every committed drag total is a grid multiple.  (Dimensions are never
snapped and the rebuild centering shift is unsnapped: see the
counterexample.) -/
theorem C3_committed_layout_grid_alignment (sq : ℚ → ℚ) (P : List Proj) :
    (∀ e ∈ (packDistricts sq P).1, alignedRect e.2.bounds ∧
      ∀ p ∈ e.2.buildings, ∀ q, p.position = some q →
        GridAligned q.x ∧ GridAligned q.z) ∧
    (∀ p' ∈ (packDistricts sq P).2, ∀ q, p'.position = some q →
      GridAligned q.x ∧ GridAligned q.z) ∧
    (∀ (acc last : ℚ × ℚ) (pts : List (ℚ × ℚ)),
      GridAligned (sumXZ (dragCommits acc last pts)).1 ∧
      GridAligned (sumXZ (dragCommits acc last pts)).2) := by
  refine ⟨?_, ?_, fun acc last pts => dragCommits_aligned pts acc last⟩
  · intro e he
    simp only [packDistricts] at he
    obtain ⟨e0, he0, hee⟩ := List.mem_map.mp he
    have hQ := layoutCategories_entries_pred sq (buildGroups P.enum)
      (fun e => alignedRect e.2.1.bounds ∧
        ∀ p ∈ e.2.1.buildings, ∀ q, p.position = some q →
          GridAligned q.x ∧ GridAligned q.z) ?_ (sortedCategories P) gridSize []
      gridSize_aligned (by simp) e0 he0
    · rw [← hee]
      exact hQ
    · intro g x z hx hz
      refine ⟨layoutDistrict_bounds_aligned sq g x z hx hz, ?_⟩
      intro p hp q hpq
      obtain ⟨tp, htp, htpe⟩ := List.mem_map.mp hp
      have hS : SlotAssigned sq p := by
        rw [← htpe]
        exact slotAssigned_of_mem_arrange sq g.buildings x z htp
      exact hS.position_aligned q hpq
  · intro p' hp' q hq
    exact (packDistricts_out_slots sq P p' hp').position_aligned q hq

set_option maxRecDepth 8000 in
theorem C3_committed_layout_grid_alignment_witness :
    (GridAligned (Pos.mk 10 10).x ∧ GridAligned (Pos.mk 10 10).z) ∧
    (GridAligned (sumXZ (dragCommits (0, 0) (0, 0) [((7 : ℚ), (2 : ℚ))])).1 ∧
     GridAligned (sumXZ (dragCommits (0, 0) (0, 0) [((7 : ℚ), (2 : ℚ))])).2) :=
  ⟨(C3_committed_layout_grid_alignment sqConst5 pairList).2.1
      ((BinPacker.packDistricts sqConst5 pairList).2.getD 0 entA)
      (by with_unfolding_all decide) (Pos.mk 10 10) (by with_unfolding_all decide),
   (C3_committed_layout_grid_alignment sqConst5 pairList).2.2 (0, 0) (0, 0)
      [((7 : ℚ), (2 : ℚ))]⟩

/-- An entity with no size score (`scope` missing/undefined). -/
def entN : Proj := mkEntity "n" "c" "active" "high" none

def listC9 : List Proj := [entA, entN]

/-- The written-back project for `entN` after the two-entity layout. -/
def pC9 : Proj := (BinPacker.packDistricts sqConst5 listC9).2.getD 1 entA

open BinPacker in
/-- C9 (amended): the layout is total — `packDistricts` writes a position
and dimensions onto every input project, including those with a missing
size score, and drops none (the output list has the input's length).  But
the defaulting is not "minimum size 1": a missing scope yields `NaN`
width/depth (`Math.sqrt(undefined)` survives the clamp), and a present
score is clamped below at 2. -/
theorem C9_layout_total_missing_scope_nan (sq : ℚ → ℚ) (P : List Proj) :
    (packDistricts sq P).2.length = P.length ∧
    ∀ p' ∈ (packDistricts sq P).2, ∃ q d, p'.position = some q ∧ p'.dimensions = some d ∧
      d.width = jsBaseSize sq p'.scope ∧ d.depth = jsBaseSize sq p'.scope ∧
      d.height = calculateHeight p'.priority ∧
      (p'.scope = none → d.width = JVal.nan) ∧
      ∀ s, p'.scope = some s → ¬ s < 0 → ∃ w, d.width = JVal.num w ∧ 2 ≤ w := by
  constructor
  · simp [packDistricts]
  · intro p' hp'
    obtain ⟨q, d, hq, hd, hw, hdep, hh⟩ := (packDistricts_out_slots sq P p' hp').dims
    refine ⟨q, d, hq, hd, hw, hdep, hh, ?_, ?_⟩
    · intro hnone
      rw [hw, hnone, jsBaseSize_none]
    · intro s hs hneg
      rw [hw, hs]
      exact jsBaseSize_min_two sq s hneg

set_option maxRecDepth 8000 in
theorem C9_layout_total_missing_scope_nan_witness :
    ∃ q d, pC9.position = some q ∧ pC9.dimensions = some d ∧
      d.width = BinPacker.jsBaseSize sqConst5 pC9.scope ∧
      d.depth = BinPacker.jsBaseSize sqConst5 pC9.scope ∧
      d.height = BinPacker.calculateHeight pC9.priority ∧
      (pC9.scope = none → d.width = JVal.nan) ∧
      ∀ s, pC9.scope = some s → ¬ s < 0 → ∃ w, d.width = JVal.num w ∧ 2 ≤ w :=
  (C9_layout_total_missing_scope_nan sqConst5 listC9).2 pC9 (by with_unfolding_all decide)


theorem foldl_min_spec :
    ∀ (l : List ℚ) (b : ℚ),
      (l.foldl min b ≤ b ∧ ∀ x ∈ l, l.foldl min b ≤ x) ∧
      (l.foldl min b = b ∨ l.foldl min b ∈ l) := by
  intro l
  induction l with
  | nil => intro b; simp
  | cons x l ih =>
      intro b
      rw [List.foldl_cons]
      obtain ⟨⟨hb, hall⟩, hat⟩ := ih (min b x)
      refine ⟨⟨hb.trans (min_le_left b x), ?_⟩, ?_⟩
      · intro y hy
        rcases List.mem_cons.mp hy with rfl | hy
        · exact hb.trans (min_le_right b y)
        · exact hall y hy
      · rcases hat with h | h
        · rcases min_choice b x with hc | hc
          · exact Or.inl (h.trans hc)
          · exact Or.inr (by rw [h, hc]; exact List.mem_cons_self x l)
        · exact Or.inr (List.mem_cons_of_mem x h)

theorem foldl_max_spec :
    ∀ (l : List ℚ) (b : ℚ),
      (b ≤ l.foldl max b ∧ ∀ x ∈ l, x ≤ l.foldl max b) ∧
      (l.foldl max b = b ∨ l.foldl max b ∈ l) := by
  intro l
  induction l with
  | nil => intro b; simp
  | cons x l ih =>
      intro b
      rw [List.foldl_cons]
      obtain ⟨⟨hb, hall⟩, hat⟩ := ih (max b x)
      refine ⟨⟨(le_max_left b x).trans hb, ?_⟩, ?_⟩
      · intro y hy
        rcases List.mem_cons.mp hy with rfl | hy
        · exact (le_max_right b y).trans hb
        · exact hall y hy
      · rcases hat with h | h
        · rcases max_choice b x with hc | hc
          · exact Or.inl (h.trans hc)
          · exact Or.inr (by rw [h, hc]; exact List.mem_cons_self x l)
        · exact Or.inr (List.mem_cons_of_mem x h)

namespace Scene

theorem tightBox_map_num :
    ∀ (R : List (ℚ × ℚ × ℚ × ℚ)) (r : ℚ × ℚ × ℚ × ℚ),
      tightBox (JVal.num r.1, JVal.num r.2.1, JVal.num r.2.2.1, JVal.num r.2.2.2)
        (R.map fun t => (JVal.num t.1, JVal.num t.2.1, JVal.num t.2.2.1, JVal.num t.2.2.2)) =
      { minX := JVal.num (R.foldl (fun m t => min m t.1) r.1)
        maxX := JVal.num (R.foldl (fun m t => max m t.2.1) r.2.1)
        minZ := JVal.num (R.foldl (fun m t => min m t.2.2.1) r.2.2.1)
        maxZ := JVal.num (R.foldl (fun m t => max m t.2.2.2) r.2.2.2) } := by
  intro R
  induction R with
  | nil => intro r; rfl
  | cons t R ih =>
      intro r
      simp only [List.map_cons, tightBox, List.foldl_cons, JVal.jmin, JVal.jmax] at ih ⊢
      exact ih (min r.1 t.1, max r.2.1 t.2.1, min r.2.2.1 t.2.2.1, max r.2.2.2 t.2.2.2)

end Scene



open Scene in
/-- C4 (amended): when a category's bounds are recomputed
(`recalcBlockBounds`, as triggered by a committed single-entity move),
the stored box is exactly the tight bounding box of the category's
current member footprints — every member footprint lies inside it and each
of its four edges is attained by some member, so there is no padding and
no grid snapping — or the scene is left unchanged (no block, no members,
or every edge within the 0.01 epsilon).  The padding constant is applied
only to the rendered outline geometry, which stores nothing. -/
theorem C4_recalc_stores_tight_member_box (st : Scene) (cat : String) (blk : Block)
    (R : List (ℚ × ℚ × ℚ × ℚ))
    (hblk : alGet st.blocks cat = some blk)
    (hR : ((st.projects.filter fun p => hasRender p && p.category = cat).filterMap
        corners) =
      R.map fun t => (JVal.num t.1, JVal.num t.2.1, JVal.num t.2.2.1, JVal.num t.2.2.2))
    (hne : R ≠ []) :
    recalcBlockBounds st cat = st ∨
    ∃ mnX mxX mnZ mxZ,
      alGet (recalcBlockBounds st cat).blocks cat =
        some { blk with bounds := ⟨JVal.num mnX, JVal.num mxX, JVal.num mnZ, JVal.num mxZ⟩ } ∧
      (∀ t ∈ R, mnX ≤ t.1 ∧ t.2.1 ≤ mxX ∧ mnZ ≤ t.2.2.1 ∧ t.2.2.2 ≤ mxZ) ∧
      mnX ∈ R.map (fun t => t.1) ∧ mxX ∈ R.map (fun t => t.2.1) ∧
      mnZ ∈ R.map (fun t => t.2.2.1) ∧ mxZ ∈ R.map (fun t => t.2.2.2) ∧
      (recalcBlockBounds st cat).projects = st.projects := by
  have hms : ¬ ((st.projects.filter fun p => hasRender p && p.category = cat).isEmpty
      = true) := by
    intro h
    rw [List.isEmpty_iff] at h
    rw [h] at hR
    simp only [List.filterMap_nil] at hR
    exact hne (List.map_eq_nil.mp hR.symm)
  cases R with
  | nil => exact absurd rfl hne
  | cons r R' =>
      rw [List.map_cons] at hR
      simp only [Scene.recalcBlockBounds, hblk, if_neg hms, hR]
      split
      · exact Or.inl rfl
      · right
        rw [Scene.tightBox_map_num]
        refine ⟨R'.foldl (fun m t => min m t.1) r.1,
          R'.foldl (fun m t => max m t.2.1) r.2.1,
          R'.foldl (fun m t => min m t.2.2.1) r.2.2.1,
          R'.foldl (fun m t => max m t.2.2.2) r.2.2.2,
          by rw [alGet_alSet_self], ?_, ?_, ?_, ?_, ?_, rfl⟩
        · intro t ht
          rw [← List.foldl_map (fun t : ℚ × ℚ × ℚ × ℚ => t.1) min,
            ← List.foldl_map (fun t : ℚ × ℚ × ℚ × ℚ => t.2.1) max,
            ← List.foldl_map (fun t : ℚ × ℚ × ℚ × ℚ => t.2.2.1) min,
            ← List.foldl_map (fun t : ℚ × ℚ × ℚ × ℚ => t.2.2.2) max]
          obtain ⟨⟨hb1, ha1⟩, -⟩ := foldl_min_spec (R'.map fun t => t.1) r.1
          obtain ⟨⟨hb2, ha2⟩, -⟩ := foldl_max_spec (R'.map fun t => t.2.1) r.2.1
          obtain ⟨⟨hb3, ha3⟩, -⟩ := foldl_min_spec (R'.map fun t => t.2.2.1) r.2.2.1
          obtain ⟨⟨hb4, ha4⟩, -⟩ := foldl_max_spec (R'.map fun t => t.2.2.2) r.2.2.2
          rcases List.mem_cons.mp ht with rfl | ht
          · exact ⟨hb1, hb2, hb3, hb4⟩
          · exact ⟨ha1 _ (List.mem_map_of_mem _ ht), ha2 _ (List.mem_map_of_mem _ ht),
              ha3 _ (List.mem_map_of_mem _ ht), ha4 _ (List.mem_map_of_mem _ ht)⟩
        · rw [← List.foldl_map (fun t : ℚ × ℚ × ℚ × ℚ => t.1) min, List.map_cons]
          rcases (foldl_min_spec (R'.map fun t => t.1) r.1).2 with h | h
          · rw [h]; exact List.mem_cons_self _ _
          · exact List.mem_cons_of_mem _ h
        · rw [← List.foldl_map (fun t : ℚ × ℚ × ℚ × ℚ => t.2.1) max, List.map_cons]
          rcases (foldl_max_spec (R'.map fun t => t.2.1) r.2.1).2 with h | h
          · rw [h]; exact List.mem_cons_self _ _
          · exact List.mem_cons_of_mem _ h
        · rw [← List.foldl_map (fun t : ℚ × ℚ × ℚ × ℚ => t.2.2.1) min, List.map_cons]
          rcases (foldl_min_spec (R'.map fun t => t.2.2.1) r.2.2.1).2 with h | h
          · rw [h]; exact List.mem_cons_self _ _
          · exact List.mem_cons_of_mem _ h
        · rw [← List.foldl_map (fun t : ℚ × ℚ × ℚ × ℚ => t.2.2.2) max, List.map_cons]
          rcases (foldl_max_spec (R'.map fun t => t.2.2.2) r.2.2.2).2 with h | h
          · rw [h]; exact List.mem_cons_self _ _
          · exact List.mem_cons_of_mem _ h

/-- The block stored for category `"c"` in the freshly built two-entity
scene. -/
def blkC4 : Block :=
  ⟨"c", ⟨JVal.num (-15/2), JVal.num (15/2), JVal.num (-5), JVal.num 0⟩⟩

/-- The member footprints of category `"c"` in that scene. -/
def RC4 : List (ℚ × ℚ × ℚ × ℚ) := [(-7/2, -3/2, -1, 1), (3/2, 7/2, -1, 1)]

set_option maxRecDepth 8000 in
theorem C4_recalc_stores_tight_member_box_witness :
    Scene.recalcBlockBounds sceneR0 "c" = sceneR0 ∨
    ∃ mnX mxX mnZ mxZ,
      alGet (Scene.recalcBlockBounds sceneR0 "c").blocks "c" =
        some { blkC4 with bounds := ⟨JVal.num mnX, JVal.num mxX, JVal.num mnZ, JVal.num mxZ⟩ } ∧
      (∀ t ∈ RC4, mnX ≤ t.1 ∧ t.2.1 ≤ mxX ∧ mnZ ≤ t.2.2.1 ∧ t.2.2.2 ≤ mxZ) ∧
      mnX ∈ RC4.map (fun t => t.1) ∧ mxX ∈ RC4.map (fun t => t.2.1) ∧
      mnZ ∈ RC4.map (fun t => t.2.2.1) ∧ mxZ ∈ RC4.map (fun t => t.2.2.2) ∧
      (Scene.recalcBlockBounds sceneR0 "c").projects = sceneR0.projects :=
  C4_recalc_stores_tight_member_box sceneR0 "c" blkC4 RC4
    (by with_unfolding_all decide) (by with_unfolding_all decide)
    (by with_unfolding_all decide)


section AListMore

variable {α : Type}

theorem alSet_map_fst_mem (l : List (String × α)) (k : String) (v : α)
    (h : k ∈ l.map Prod.fst) : (alSet l k v).map Prod.fst = l.map Prod.fst := by
  induction l with
  | nil => simp at h
  | cons e es ih =>
      rw [alSet]
      by_cases he : e.1 = k
      · rw [if_pos he]
        simp [he]
      · rw [if_neg he]
        rw [List.map_cons] at h
        rcases List.mem_cons.mp h with h' | h'
        · exact absurd h'.symm he
        · simp [ih h']

theorem alSet_of_not_mem (l : List (String × α)) (k : String) (v : α)
    (h : ¬ k ∈ l.map Prod.fst) : alSet l k v = l ++ [(k, v)] := by
  induction l with
  | nil => rfl
  | cons e es ih =>
      rw [alSet]
      simp only [List.map_cons, List.mem_cons] at h
      push_neg at h
      rw [if_neg (fun he => h.1 he.symm)]
      rw [ih h.2, List.cons_append]

theorem alSet_map_fst_not_mem (l : List (String × α)) (k : String) (v : α)
    (h : ¬ k ∈ l.map Prod.fst) :
    (alSet l k v).map Prod.fst = l.map Prod.fst ++ [k] := by
  rw [alSet_of_not_mem l k v h]
  simp

theorem loadFold_eq_append (l : List (String × α)) :
    ∀ (acc : List (String × α)),
      (∀ k ∈ l.map Prod.fst, ¬ k ∈ acc.map Prod.fst) → (l.map Prod.fst).Nodup →
      l.foldl (fun a e => alSet a e.1 e.2) acc = acc ++ l := by
  induction l with
  | nil => intro acc _ _; simp
  | cons e es ih =>
      intro acc hdis hnd
      rw [List.foldl_cons, alSet_of_not_mem acc e.1 e.2
        (hdis e.1 (by simp))]
      rw [List.map_cons, List.nodup_cons] at hnd
      rw [ih (acc ++ [(e.1, e.2)]) ?_ hnd.2]
      · simp
      · intro k hk
        simp only [List.map_append, List.mem_append]
        push_neg
        refine ⟨hdis k (by simp [hk]), ?_⟩
        simp only [List.map_cons, List.map_nil, List.mem_singleton]
        intro he
        rw [he] at hk
        exact hnd.1 hk

theorem loadSaved_eq_self (l : List (String × (ℚ × ℚ)))
    (h : (l.map Prod.fst).Nodup) : Scene.loadSaved l = l := by
  rw [Scene.loadSaved, loadFold_eq_append l [] (by simp) h, List.nil_append]

theorem loadFold_fst_nodup (l : List (String × α)) :
    ∀ (acc : List (String × α)), (acc.map Prod.fst).Nodup →
      ((l.foldl (fun a e => alSet a e.1 e.2) acc).map Prod.fst).Nodup := by
  induction l with
  | nil => intro acc h; simpa using h
  | cons e es ih =>
      intro acc h
      rw [List.foldl_cons]
      apply ih
      by_cases hm : e.1 ∈ acc.map Prod.fst
      · rwa [alSet_map_fst_mem acc e.1 e.2 hm]
      · rw [alSet_map_fst_not_mem acc e.1 e.2 hm, List.nodup_append]
        refine ⟨h, List.nodup_singleton _, ?_⟩
        intro x hx hx2
        simp only [List.mem_singleton] at hx2
        rw [hx2] at hx
        exact hm hx

theorem loadSaved_fst_nodup (l : List (String × (ℚ × ℚ))) :
    ((Scene.loadSaved l).map Prod.fst).Nodup := by
  rw [Scene.loadSaved]
  exact loadFold_fst_nodup l [] (by simp)

theorem alGet_map_fst_fun {γ : Type} (l : List (String × α)) (g : String → γ) (c : String) :
    alGet (l.map fun e => (e.1, g e.1)) c =
      if c ∈ l.map Prod.fst then some (g c) else none := by
  induction l with
  | nil => simp [alGet]
  | cons e es ih =>
      rw [List.map_cons, alGet]
      dsimp only
      by_cases he : e.1 = c
      · rw [if_pos he, List.map_cons, he, if_pos (List.mem_cons_self _ _)]
      · rw [if_neg he, ih, List.map_cons]
        by_cases hc : c ∈ es.map Prod.fst
        · rw [if_pos hc, if_pos (List.mem_cons_of_mem _ hc)]
        · rw [if_neg hc, if_neg ?_]
          intro hmem
          rcases List.mem_cons.mp hmem with h' | h'
          · exact he h'.symm
          · exact hc h'

end AListMore



namespace Scene

/-- The `(projects, blocks)` action of `recalcBlockBounds`, as a function
of those two fields only (it reads nothing else). -/
def recalcPB (pb : List Proj × List (String × Block)) (cat : String) :
    List Proj × List (String × Block) :=
  match alGet pb.2 cat with
  | none => pb
  | some blk =>
      let ms := pb.1.filter fun p => hasRender p && p.category = cat
      if ms.isEmpty then pb
      else
        match ms.filterMap corners with
        | [] => pb
        | c :: cs =>
            let nb := tightBox c cs
            let eps : ℚ := 1/100
            if JVal.jabsLt (JVal.jsub blk.bounds.minX nb.minX) eps &&
               JVal.jabsLt (JVal.jsub blk.bounds.maxX nb.maxX) eps &&
               JVal.jabsLt (JVal.jsub blk.bounds.minZ nb.minZ) eps &&
               JVal.jabsLt (JVal.jsub blk.bounds.maxZ nb.maxZ) eps then pb
            else (pb.1, alSet pb.2 cat { blk with bounds := nb })

theorem recalc_pb (st : Scene) (cat : String) :
    ((recalcBlockBounds st cat).projects, (recalcBlockBounds st cat).blocks) =
      recalcPB (st.projects, st.blocks) cat := by
  rw [recalcBlockBounds, recalcPB]
  dsimp only
  cases alGet st.blocks cat with
  | none => rfl
  | some blk =>
      dsimp only
      repeat' split
      all_goals try rfl
      all_goals simp_all

/-- The `(projects, blocks)` action of `moveSingleBuilding`. -/
def moveSinglePB (pb : List Proj × List (String × Block)) (path : String) (dx dz : ℚ) :
    List Proj × List (String × Block) :=
  match pb.1.find? (fun p => p.path = path) with
  | none => pb
  | some p =>
      recalcPB (pb.1.map fun q => if q.path = path then moveProjXZ q dx dz else q, pb.2)
        p.category

theorem moveSingle_pb (st : Scene) (path : String) (dx dz : ℚ) :
    ((moveSingleBuilding st path dx dz).projects, (moveSingleBuilding st path dx dz).blocks) =
      moveSinglePB (st.projects, st.blocks) path dx dz := by
  rw [moveSingleBuilding, moveSinglePB]
  dsimp only
  cases st.projects.find? (fun p => p.path = path) with
  | none => rfl
  | some p => exact recalc_pb _ _

/-- The `(projects, blocks)` action of `centerOne`. -/
def centerOnePB (pb : List Proj × List (String × Block)) (cat : String) :
    List Proj × List (String × Block) :=
  match alGet pb.2 cat with
  | none => pb
  | some blk =>
      match pb.1.filter (fun p => hasRender p && p.category = cat) with
      | [p] =>
          match p.position, p.dimensions with
          | some pos, some _ =>
              let cx := JVal.jhalf (JVal.jadd blk.bounds.minX blk.bounds.maxX)
              let cz := JVal.jhalf (JVal.jadd blk.bounds.minZ blk.bounds.maxZ)
              let dx := JVal.jsub cx (JVal.num pos.x)
              let dz := JVal.jsub cz (JVal.num pos.z)
              if JVal.jabsLt dx (1/10) && JVal.jabsLt dz (1/10) then pb
              else
                match dx, dz with
                | JVal.num a, JVal.num b => moveSinglePB pb p.path a b
                | _, _ => pb
          | _, _ => pb
      | _ => pb

theorem centerOne_pb (st : Scene) (cat : String) :
    ((centerOne st cat).projects, (centerOne st cat).blocks) =
      centerOnePB (st.projects, st.blocks) cat := by
  rw [centerOne, centerOnePB]
  dsimp only
  cases alGet st.blocks cat with
  | none => rfl
  | some blk =>
      dsimp only
      repeat' split
      all_goals try rfl
      all_goals try exact moveSingle_pb _ _ _ _
      all_goals simp_all

/-- The `(projects, blocks)` action of `centerSingleBuildings`. -/
def centerPB (pb : List Proj × List (String × Block)) : List Proj × List (String × Block) :=
  (pb.2.map Prod.fst).foldl centerOnePB pb

theorem centerFold_pb :
    ∀ (ks : List String) (st : Scene),
      ((ks.foldl centerOne st).projects, (ks.foldl centerOne st).blocks) =
        ks.foldl centerOnePB (st.projects, st.blocks) := by
  intro ks
  induction ks with
  | nil => intro st; rfl
  | cons k ks ih =>
      intro st
      rw [List.foldl_cons, List.foldl_cons, ih, centerOne_pb]

theorem centerSingle_pb (st : Scene) :
    ((centerSingleBuildings st).projects, (centerSingleBuildings st).blocks) =
      centerPB (st.projects, st.blocks) := by
  rw [centerSingleBuildings, centerPB]
  exact centerFold_pb _ _

end Scene



theorem not_mem_of_alGet_none {α : Type} {l : List (String × α)} {k : String}
    (h : alGet l k = none) : ¬ k ∈ l.map Prod.fst := by
  intro hm
  obtain ⟨e, he, hf⟩ := List.mem_map.mp hm
  have : ((k, e.2) : String × α) ∈ l := by
    have : e = (k, e.2) := by
      cases e
      simp_all
    rwa [this] at he
  have := isSome_alGet_of_mem this
  rw [h] at this
  exact Bool.noConfusion this

namespace Scene

theorem recalc_other (st : Scene) (cat : String) :
    (recalcBlockBounds st cat).blockOffsets = st.blockOffsets ∧
    (recalcBlockBounds st cat).savedPositions = st.savedPositions := by
  rw [recalcBlockBounds]
  cases alGet st.blocks cat with
  | none => exact ⟨rfl, rfl⟩
  | some blk =>
      dsimp only
      repeat' split
      all_goals exact ⟨rfl, rfl⟩

theorem moveSingle_other (st : Scene) (path : String) (dx dz : ℚ) :
    (moveSingleBuilding st path dx dz).blockOffsets = st.blockOffsets ∧
    (moveSingleBuilding st path dx dz).savedPositions = st.savedPositions := by
  rw [moveSingleBuilding]
  cases st.projects.find? (fun p => p.path = path) with
  | none => exact ⟨rfl, rfl⟩
  | some p => exact ⟨(recalc_other _ _).1, (recalc_other _ _).2⟩

theorem centerOne_other (st : Scene) (cat : String) :
    (centerOne st cat).blockOffsets = st.blockOffsets ∧
    (centerOne st cat).savedPositions = st.savedPositions := by
  simp only [centerOne]
  repeat' split
  all_goals first
    | exact ⟨rfl, rfl⟩
    | exact ⟨(moveSingle_other _ _ _ _).1, (moveSingle_other _ _ _ _).2⟩

theorem centerFold_other :
    ∀ (ks : List String) (st : Scene),
      (ks.foldl centerOne st).blockOffsets = st.blockOffsets ∧
      (ks.foldl centerOne st).savedPositions = st.savedPositions := by
  intro ks
  induction ks with
  | nil => exact fun st => ⟨rfl, rfl⟩
  | cons k ks ih =>
      intro st
      rw [List.foldl_cons]
      exact ⟨(ih _).1.trans (centerOne_other _ _).1,
        (ih _).2.trans (centerOne_other _ _).2⟩

theorem centerSingle_other (st : Scene) :
    (centerSingleBuildings st).blockOffsets = st.blockOffsets ∧
    (centerSingleBuildings st).savedPositions = st.savedPositions := by
  rw [centerSingleBuildings]
  exact centerFold_other _ _

theorem recalcPB_snd_fst (pb : List Proj × List (String × Block)) (cat : String) :
    (recalcPB pb cat).2.map Prod.fst = pb.2.map Prod.fst := by
  rw [recalcPB]
  cases h : alGet pb.2 cat with
  | none => rfl
  | some blk =>
      dsimp only
      repeat' split
      all_goals try rfl
      exact alSet_map_fst_mem _ _ _
        (List.mem_map_of_mem Prod.fst (mem_of_alGet_eq_some h))

theorem moveSinglePB_snd_fst (pb : List Proj × List (String × Block)) (path : String)
    (dx dz : ℚ) :
    (moveSinglePB pb path dx dz).2.map Prod.fst = pb.2.map Prod.fst := by
  rw [moveSinglePB]
  cases pb.1.find? (fun p => p.path = path) with
  | none => rfl
  | some p => exact recalcPB_snd_fst _ _

theorem centerOnePB_snd_fst (pb : List Proj × List (String × Block)) (cat : String) :
    (centerOnePB pb cat).2.map Prod.fst = pb.2.map Prod.fst := by
  simp only [centerOnePB]
  repeat' split
  all_goals first
    | rfl
    | exact moveSinglePB_snd_fst _ _ _ _

theorem centerPB_snd_fst_fold :
    ∀ (ks : List String) (pb : List Proj × List (String × Block)),
      (ks.foldl centerOnePB pb).2.map Prod.fst = pb.2.map Prod.fst := by
  intro ks
  induction ks with
  | nil => exact fun pb => rfl
  | cons k ks ih =>
      intro pb
      rw [List.foldl_cons, ih, centerOnePB_snd_fst]

theorem centerPB_snd_fst (pb : List Proj × List (String × Block)) :
    (centerPB pb).2.map Prod.fst = pb.2.map Prod.fst := by
  rw [centerPB]
  exact centerPB_snd_fst_fold _ _

theorem addCatFold_fst_nodup :
    ∀ (ds : List District) (acc : List (String × (ℚ × ℚ × ℚ × ℚ))),
      (acc.map Prod.fst).Nodup →
      ((ds.foldl addCatBounds acc).map Prod.fst).Nodup := by
  intro ds
  induction ds with
  | nil => intro acc h; simpa using h
  | cons d ds ih =>
      intro acc h
      rw [List.foldl_cons]
      apply ih
      rw [addCatBounds]
      cases hg : alGet acc d.category with
      | none =>
          dsimp only
          rw [List.map_append, List.nodup_append]
          refine ⟨h, List.nodup_singleton _, ?_⟩
          intro x hx hx2
          simp only [List.map_cons, List.map_nil, List.mem_singleton] at hx2
          rw [hx2] at hx
          exact not_mem_of_alGet_none hg hx
      | some cb =>
          dsimp only
          rwa [alSet_map_fst_mem _ _ _
            (List.mem_map_of_mem Prod.fst (mem_of_alGet_eq_some hg))]

theorem mkBlocks_fst (D : List (String × District)) :
    (mkBlocks D).map Prod.fst = ((D.map Prod.snd).foldl addCatBounds []).map Prod.fst := by
  rw [mkBlocks, List.map_map]
  exact List.map_congr_left fun e _ => rfl

theorem mkBlocks_fst_nodup (D : List (String × District)) :
    ((mkBlocks D).map Prod.fst).Nodup := by
  rw [mkBlocks_fst]
  exact addCatFold_fst_nodup _ [] (by simp)

end Scene



theorem effOffset_bounded (l : List (String × (ℚ × ℚ))) (c : String) :
    ¬ (500 < |(effOffset l c).1| ∨ 500 < |(effOffset l c).2|) := by
  rw [effOffset]
  cases h : alGet l c with
  | none => dsimp only; norm_num
  | some o =>
      dsimp only
      split
      · norm_num
      · next hbig =>
          split
          · exact hbig
          · norm_num

theorem effOffset_of_get_eff (l1 l2 : List (String × (ℚ × ℚ))) (c : String)
    (hget : alGet l2 c = some (effOffset l1 c)) :
    effOffset l2 c = effOffset l1 c := by
  rw [effOffset, hget]
  dsimp only
  rw [if_neg (effOffset_bounded l1 c)]
  by_cases hz : (effOffset l1 c).1 ≠ 0 ∨ (effOffset l1 c).2 ≠ 0
  · rw [if_pos hz]
  · rw [if_neg hz]
    push_neg at hz
    exact Prod.ext_iff.mpr ⟨hz.1.symm, hz.2.symm⟩

theorem applyShift_category (l : List (String × (ℚ × ℚ))) (p : Proj) :
    (applyShift l p).category = p.category := by
  rw [applyShift]
  split <;> simp

theorem applyShift_hasRender (l : List (String × (ℚ × ℚ))) (p : Proj) :
    Scene.hasRender (applyShift l p) = Scene.hasRender p := by
  rw [applyShift]
  split <;> simp

namespace Scene

/-- The `(projects, blocks)` pair a rebuild computes before reapplying
saved offsets: pack, center on the origin, build the block map, center
single-building categories.  Independent of the persisted store. -/
def corePB (sq : ℚ → ℚ) (P : List Proj) : List Proj × List (String × Block) :=
  let r := BinPacker.packDistricts sq P
  let PD := centerLayout r.2 r.1
  centerPB (PD.1, mkBlocks PD.2)

theorem fullRebuild_shape (sq : ℚ → ℚ) (P : List Proj)
    (sv : List (String × (ℚ × ℚ))) :
    (fullRebuild sq P sv).projects =
      (corePB sq P).1.map (applyShift (loadSaved sv)) ∧
    (fullRebuild sq P sv).blocks.map Prod.fst = (corePB sq P).2.map Prod.fst ∧
    ∀ c, (alGet (fullRebuild sq P sv).blockOffsets c).getD (0, 0) =
      effOffset (loadSaved sv) c := by
  simp only [fullRebuild, buildCity, initScene]
  rw [applySavedPositions]
  rw [(centerSingle_other _).2]
  dsimp only
  refine ⟨?_, ?_, ?_⟩
  · rw [projects_applyFold _ _ (loadSaved_fst_nodup sv)]
    have hP : (centerSingleBuildings
        { projects := (centerLayout (BinPacker.packDistricts sq P).2
            (BinPacker.packDistricts sq P).1).1
          blocks := mkBlocks (centerLayout (BinPacker.packDistricts sq P).2
            (BinPacker.packDistricts sq P).1).2
          blockOffsets := [], savedPositions := loadSaved sv
          warnings := [], isDragging := false, draggedBlock := none, movingBuilding := none
          dragAccumulator := (0, 0), dragStartPoint := (0, 0), buildingDragStart := (0, 0)
          lastClickTime := 0, lastClicked := none }).projects = (corePB sq P).1 :=
      congrArg Prod.fst (centerSingle_pb _)
    rw [hP]
  · rw [blocks_fst_applyFold]
    have hB : (centerSingleBuildings
        { projects := (centerLayout (BinPacker.packDistricts sq P).2
            (BinPacker.packDistricts sq P).1).1
          blocks := mkBlocks (centerLayout (BinPacker.packDistricts sq P).2
            (BinPacker.packDistricts sq P).1).2
          blockOffsets := [], savedPositions := loadSaved sv
          warnings := [], isDragging := false, draggedBlock := none, movingBuilding := none
          dragAccumulator := (0, 0), dragStartPoint := (0, 0), buildingDragStart := (0, 0)
          lastClickTime := 0, lastClicked := none }).blocks = (corePB sq P).2 :=
      congrArg Prod.snd (centerSingle_pb _)
    rw [hB]
  · intro c
    rw [blockOffsets_applyFold _ _ (loadSaved_fst_nodup sv) c]
    rw [(centerSingle_other _).1]
    dsimp only
    rw [effOffset]
    cases alGet (loadSaved sv) c with
    | none => rfl
    | some o =>
        dsimp only
        split
        · rfl
        · split
          · rfl
          · rfl

end Scene



open Scene in
/-- C6 (amended): the rebuild pipeline is idempotent over save/load —
rebuilding, serializing the offset store (`triggerSave`), reloading the
serialized entries and rebuilding again reproduces exactly the same
per-entity positions, for any entity set and any persisted store, as long
as every rendered entity's category has a block (the layout guarantees
this except for grouping-key collisions).  The first rebuild is what
normalizes the store: offsets beyond the sanity bound or for unknown
categories are dropped there (see the counterexample), after which the
arrangement is a function of `(entity set, offset map)` alone. -/
theorem C6_rebuild_save_load_idempotent (sq : ℚ → ℚ) (P : List Proj)
    (saved : List (String × (ℚ × ℚ)))
    (hcov : ∀ p ∈ (fullRebuild sq P saved).projects, hasRender p = true →
      p.category ∈ (fullRebuild sq P saved).blocks.map Prod.fst) :
    (fullRebuild sq P (triggerSave (fullRebuild sq P saved))).projects =
      (fullRebuild sq P saved).projects := by
  obtain ⟨h1p, h1b, h1o⟩ := fullRebuild_shape sq P saved
  obtain ⟨h2p, -, -⟩ := fullRebuild_shape sq P (triggerSave (fullRebuild sq P saved))
  rw [h1p, h2p]
  apply List.map_congr_left
  intro p hp
  have hcov' : hasRender p = true → p.category ∈ (corePB sq P).2.map Prod.fst := by
    intro hr
    have hmem : applyShift (loadSaved saved) p ∈ (fullRebuild sq P saved).projects := by
      rw [h1p]
      exact List.mem_map_of_mem _ hp
    have hx := hcov _ hmem (by rw [applyShift_hasRender]; exact hr)
    rw [applyShift_category, h1b] at hx
    exact hx
  rw [applyShift, applyShift]
  by_cases hr : hasRender p
  · rw [if_pos hr, if_pos hr]
    have hmapfst : (triggerSave (fullRebuild sq P saved)).map Prod.fst =
        (fullRebuild sq P saved).blocks.map Prod.fst := by
      rw [triggerSave, List.map_map]
      exact List.map_congr_left fun e _ => rfl
    have hK : ((triggerSave (fullRebuild sq P saved)).map Prod.fst).Nodup := by
      rw [hmapfst, h1b]
      simp only [corePB]
      rw [centerPB_snd_fst]
      exact mkBlocks_fst_nodup _
    have hget : alGet (loadSaved (triggerSave (fullRebuild sq P saved))) p.category =
        some (effOffset (loadSaved saved) p.category) := by
      rw [loadSaved_eq_self _ hK, triggerSave]
      rw [alGet_map_fst_fun _
        (fun c => (alGet (fullRebuild sq P saved).blockOffsets c).getD (0, 0)) p.category]
      rw [if_pos (by rw [h1b]; exact hcov' hr), h1o p.category]
    rw [effOffset_of_get_eff (loadSaved saved) _ p.category hget]
  · rw [if_neg hr, if_neg hr]

set_option maxRecDepth 8000 in
theorem C6_rebuild_save_load_idempotent_witness :
    (Scene.fullRebuild sqConst5 pairList
        (Scene.triggerSave (Scene.fullRebuild sqConst5 pairList [("c", (5, 0))]))).projects =
      (Scene.fullRebuild sqConst5 pairList [("c", (5, 0))]).projects :=
  C6_rebuild_save_load_idempotent sqConst5 pairList [("c", (5, 0))]
    (by with_unfolding_all decide)


namespace BinPacker

theorem keyFilter_cons_pos (tp : TProj) (l : List TProj) (k : String)
    (h : projKey tp.2 = k) : keyFilter (tp :: l) k = tp :: keyFilter l k := by
  rw [keyFilter, List.filter_cons, if_pos (by simp [h]), keyFilter]

theorem keyFilter_cons_neg (tp : TProj) (l : List TProj) (k : String)
    (h : ¬ projKey tp.2 = k) : keyFilter (tp :: l) k = keyFilter l k := by
  rw [keyFilter, List.filter_cons, if_neg (by simp [h]), keyFilter]

theorem keyFilter_filter (l : List TProj) (p : TProj → Bool) (k : String)
    (h : ∀ tp ∈ l, projKey tp.2 = k → p tp = true) :
    keyFilter (l.filter p) k = keyFilter l k := by
  rw [keyFilter, keyFilter, List.filter_filter]
  apply List.filter_congr
  intro tp htp
  by_cases hk : projKey tp.2 = k
  · simp [hk, h tp htp hk]
  · simp [hk]

theorem any_key_map (acc : List GroupE) (f : GroupE → GroupE)
    (hf : ∀ g, (f g).key = g.key) (x : String) :
    ((acc.map f).any fun g => g.key = x) = (acc.any fun g => g.key = x) := by
  induction acc with
  | nil => rfl
  | cons g gs ih => simp [hf, ih]

/-- The grouping fold against the explicit recursion: groups already in
the accumulator receive their remaining same-key elements in order, and
the remaining elements with new keys are grouped by `groupsRec`. -/
theorem foldl_addToGroups_eq :
    ∀ (l : List TProj) (acc : List GroupE),
      l.foldl addToGroups acc =
        acc.map (fun g => { g with buildings := g.buildings ++ keyFilter l g.key }) ++
          groupsRec (l.filter fun tp => !(acc.any fun g => g.key = projKey tp.2)) := by
  intro l
  induction l with
  | nil =>
      intro acc
      simp only [List.foldl_nil, keyFilter, List.filter_nil, List.append_nil, groupsRec]
      exact (List.map_id acc).symm
  | cons tp l ih =>
      intro acc
      rw [List.foldl_cons]
      by_cases hany : (acc.any fun g => g.key = projKey tp.2) = true
      · rw [show addToGroups acc tp = acc.map (fun g =>
            if g.key = projKey tp.2 then { g with buildings := g.buildings ++ [tp] } else g)
          from by rw [addToGroups, if_pos hany]]
        rw [ih]
        congr 1
        · rw [List.map_map]
          apply List.map_congr_left
          intro g hg
          simp only [Function.comp_apply]
          by_cases hk : g.key = projKey tp.2
          · rw [if_pos hk]
            rw [keyFilter_cons_pos tp l g.key hk.symm, List.append_assoc]
            rfl
          · rw [if_neg hk]
            rw [keyFilter_cons_neg tp l g.key (fun h => hk h.symm)]
        · have hfeq : (l.filter fun tp' =>
              !((acc.map fun g => if g.key = projKey tp.2
                  then { g with buildings := g.buildings ++ [tp] } else g).any
                fun g => g.key = projKey tp'.2)) =
              (l.filter fun tp' => !(acc.any fun g => g.key = projKey tp'.2)) := by
            apply List.filter_congr
            intro tp' _
            rw [any_key_map acc _ (fun g => by split <;> rfl)]
          rw [hfeq]
          have : ((tp :: l).filter fun tp' =>
              !(acc.any fun g => g.key = projKey tp'.2)) =
              (l.filter fun tp' => !(acc.any fun g => g.key = projKey tp'.2)) := by
            rw [List.filter_cons, if_neg (by simp [hany])]
          rw [this]
      · rw [show addToGroups acc tp =
            acc ++ [⟨projKey tp.2, tp.2.stage, tp.2.category, [tp]⟩]
          from by rw [addToGroups, if_neg hany]]
        rw [ih]
        have hkeep : ((tp :: l).filter fun tp' =>
            !(acc.any fun g => g.key = projKey tp'.2)) =
            tp :: (l.filter fun tp' => !(acc.any fun g => g.key = projKey tp'.2)) := by
          rw [List.filter_cons, if_pos (by simp [hany])]
        rw [hkeep]
        rw [groupsRec]
        rw [List.map_append]
        have h1 : (acc.map fun g => { g with buildings := g.buildings ++ keyFilter l g.key }) =
            acc.map fun g => { g with buildings := g.buildings ++ keyFilter (tp :: l) g.key } := by
          apply List.map_congr_left
          intro g hg
          have hk : ¬ projKey tp.2 = g.key := by
            intro h
            have hany2 : (acc.any fun g => g.key = projKey tp.2) = false := by
              simpa using hany
            rw [List.any_eq_false] at hany2
            exact (by simpa using hany2 g hg : ¬ g.key = projKey tp.2) h.symm
          rw [keyFilter_cons_neg tp l g.key hk]
        have h2 : keyFilter (l.filter fun tp' =>
            !(acc.any fun g => g.key = projKey tp'.2)) (projKey tp.2) =
            keyFilter l (projKey tp.2) := by
          apply keyFilter_filter
          intro tp' _ hk
          beta_reduce
          rw [hk]
          have hfalse : (acc.any fun g => g.key = projKey tp.2) = false := by
            simpa using hany
          rw [hfalse]
          rfl
        have h3 : (l.filter fun tp' =>
            !((acc ++ [(⟨projKey tp.2, tp.2.stage, tp.2.category, [tp]⟩ : GroupE)]).any
              fun g => g.key = projKey tp'.2)) =
            ((l.filter fun tp' => !(acc.any fun g => g.key = projKey tp'.2)).filter
              fun q => ¬ projKey q.2 = projKey tp.2) := by
          rw [List.filter_filter]
          apply List.filter_congr
          intro tp' _
          simp [List.any_append, eq_comm, Bool.and_comm]
        rw [h1, h2, h3]
        rw [List.append_assoc]
        congr 1





theorem buildGroups_eq_rec (l : List TProj) : buildGroups l = groupsRec l := by
  rw [buildGroups, foldl_addToGroups_eq l []]
  simp

theorem groupsRec_props :
    ∀ (l : List TProj),
      (∀ g ∈ groupsRec l,
        g.buildings = keyFilter l g.key ∧
        (∃ hd tl, g.buildings = hd :: tl ∧ g.stage = hd.2.stage ∧
          g.category = hd.2.category ∧ projKey hd.2 = g.key) ∧
        (∃ tp ∈ l, projKey tp.2 = g.key)) ∧
      ((groupsRec l).map GroupE.key).Nodup ∧
      (∀ k, (∃ tp ∈ l, projKey tp.2 = k) → ∃ g ∈ groupsRec l, g.key = k) := by
  have main : ∀ (n : Nat) (l : List TProj), l.length ≤ n →
      (∀ g ∈ groupsRec l,
        g.buildings = keyFilter l g.key ∧
        (∃ hd tl, g.buildings = hd :: tl ∧ g.stage = hd.2.stage ∧
          g.category = hd.2.category ∧ projKey hd.2 = g.key) ∧
        (∃ tp ∈ l, projKey tp.2 = g.key)) ∧
      ((groupsRec l).map GroupE.key).Nodup ∧
      (∀ k, (∃ tp ∈ l, projKey tp.2 = k) → ∃ g ∈ groupsRec l, g.key = k) := by
    intro n
    induction n with
    | zero =>
        intro l hl
        rw [Nat.le_zero, List.length_eq_zero] at hl
        subst hl
        refine ⟨by simp [groupsRec], by simp [groupsRec], ?_⟩
        rintro k ⟨tp, htp, -⟩
        simp at htp
    | succ n ihn =>
        intro l hl
        cases l with
        | nil =>
            refine ⟨by simp [groupsRec], by simp [groupsRec], ?_⟩
            rintro k ⟨tp, htp, -⟩
            simp at htp
        | cons tp rest =>
            rw [groupsRec]
            have hlen : (rest.filter fun q => ¬ projKey q.2 = projKey tp.2).length ≤ n := by
              have h1 := List.length_filter_le (fun q => decide ¬ projKey q.2 = projKey tp.2) rest
              have h2 : rest.length ≤ n := by
                simpa using Nat.le_of_succ_le_succ (by simpa using hl)
              omega
            obtain ⟨ihA, ihB, ihC⟩ := ihn _ hlen
            have htail_key : ∀ g ∈ groupsRec
                (rest.filter fun q => ¬ projKey q.2 = projKey tp.2),
                ¬ g.key = projKey tp.2 := by
              intro g hg hk
              obtain ⟨-, -, tp', htp', hkey'⟩ := ihA g hg
              have := List.of_mem_filter htp'
              rw [hkey', hk] at this
              simp at this
            refine ⟨?_, ?_, ?_⟩
            · intro g hg
              rcases List.mem_cons.mp hg with rfl | hg
              · refine ⟨?_, ⟨tp, keyFilter rest (projKey tp.2), rfl, rfl, rfl, rfl⟩,
                  tp, List.mem_cons_self _ _, rfl⟩
                dsimp only
                rw [keyFilter_cons_pos tp rest _ rfl]
              · obtain ⟨hbld, hhd, tp', htp', hkey'⟩ := ihA g hg
                have hgk : ¬ g.key = projKey tp.2 := htail_key g hg
                refine ⟨?_, hhd, tp',
                  List.mem_cons_of_mem tp (List.mem_of_mem_filter htp'), hkey'⟩
                rw [hbld, keyFilter_cons_neg tp rest g.key (fun h => hgk h.symm)]
                rw [keyFilter_filter]
                intro q _ hq
                simp only [decide_eq_true_eq]
                rw [hq]
                exact hgk
            · rw [List.map_cons, List.nodup_cons]
              refine ⟨?_, ihB⟩
              intro hmem
              obtain ⟨g, hg, hgk⟩ := List.mem_map.mp hmem
              exact htail_key g hg hgk
            · rintro k ⟨tp'', htp'', hk''⟩
              by_cases hkk : k = projKey tp.2
              · exact ⟨_, List.mem_cons_self _ _, hkk.symm⟩
              · have htpr : tp'' ∈ rest := by
                  rcases List.mem_cons.mp htp'' with rfl | h
                  · exact absurd hk''.symm hkk
                  · exact h
                have hpass : tp'' ∈ rest.filter fun q => ¬ projKey q.2 = projKey tp.2 := by
                  apply List.mem_filter_of_mem htpr
                  simp only [decide_eq_true_eq]
                  rw [hk'']
                  exact hkk
                obtain ⟨g, hg, hgk⟩ := ihC k ⟨tp'', hpass, hk''⟩
                exact ⟨g, List.mem_cons_of_mem _ hg, hgk⟩
  exact fun l => main l.length l (le_refl _)

end BinPacker

namespace BinPacker

/-- With canonical (underscore-free) stage names, the grouping key
`` `${stage}_${category}` `` determines both components. -/
theorem stage_key_det {s1 s2 c1 c2 : String}
    (h1 : s1 ∈ stages) (h2 : s2 ∈ stages)
    (hk : s1 ++ "_" ++ c1 = s2 ++ "_" ++ c2) : s1 = s2 ∧ c1 = c2 := by
  have hd := congrArg String.data hk
  simp only [String.data_append] at hd
  simp only [stages, List.mem_cons, List.mem_singleton, List.not_mem_nil, or_false] at h1 h2
  rcases h1 with rfl | rfl | rfl | rfl <;> rcases h2 with rfl | rfl | rfl | rfl <;>
    simp_all <;> exact String.ext hd

theorem stageIdx_inj {s1 s2 : String} (h1 : s1 ∈ stages) (h2 : s2 ∈ stages)
    (h : stageIdx s1 = stageIdx s2) : s1 = s2 := by
  simp only [stages, List.mem_cons, List.mem_singleton, List.not_mem_nil, or_false] at h1 h2
  rcases h1 with rfl | rfl | rfl | rfl <;> rcases h2 with rfl | rfl | rfl | rfl <;>
    simp_all [stageIdx]

theorem stageIdx_nonneg {s : String} (h : s ∈ stages) : ¬ stageIdx s = -1 := by
  simp only [stages, List.mem_cons, List.mem_singleton, List.not_mem_nil, or_false] at h
  rcases h with rfl | rfl | rfl | rfl <;> simp [stageIdx]

end BinPacker

namespace BinPacker

/-- Untagged slot assignment: the `Proj` image of `assignFrom`. -/
def assignFromP (sq : ℚ → ℚ) (startX startZ : ℚ) : Nat → List Proj → List Proj
  | _, [] => []
  | i, p :: ps => assignSlot sq startX startZ i p :: assignFromP sq startX startZ (i + 1) ps

theorem assignFrom_map_snd (sq : ℚ → ℚ) (x z : ℚ) :
    ∀ (n : Nat) (bs : List TProj),
      (assignFrom sq x z n bs).map Prod.snd = assignFromP sq x z n (bs.map Prod.snd) := by
  intro n bs
  induction bs generalizing n with
  | nil => rfl
  | cons b bs ih => simp [assignFrom, assignFromP, ih]

/-- Untagged priority bucket sort. -/
def sortByPriorityP (ps : List Proj) : List Proj :=
  (ps.filter fun p => priorityRank p.priority = 0) ++
  (ps.filter fun p => priorityRank p.priority = 1) ++
  (ps.filter fun p => priorityRank p.priority = 2) ++
  (ps.filter fun p => priorityRank p.priority = 3)

theorem filter_rank_map_snd (bs : List TProj) (j : Nat) :
    (bs.filter fun b => priorityRank b.2.priority = j).map Prod.snd =
      (bs.map Prod.snd).filter fun p => priorityRank p.priority = j := by
  induction bs with
  | nil => rfl
  | cons b bs ih =>
      rw [List.map_cons, List.filter_cons, List.filter_cons]
      by_cases h : priorityRank b.2.priority = j
      · rw [if_pos (by simpa using h), if_pos (by simpa using h), List.map_cons, ih]
      · rw [if_neg (by simpa using h), if_neg (by simpa using h), ih]

theorem sortByPriority_map_snd (bs : List TProj) :
    (sortByPriority bs).map Prod.snd = sortByPriorityP (bs.map Prod.snd) := by
  rw [sortByPriority, sortByPriorityP]
  simp only [List.map_append]
  rw [filter_rank_map_snd, filter_rank_map_snd, filter_rank_map_snd, filter_rank_map_snd]

theorem filter_rank_eq_of_perm {X Y : List Proj} (hperm : X.Perm Y) (j : Nat)
    (hX : ∀ p ∈ X, ∀ q ∈ X, priorityRank p.priority = priorityRank q.priority → p = q) :
    X.filter (fun p => priorityRank p.priority = j) =
      Y.filter (fun p => priorityRank p.priority = j) := by
  have hpf := hperm.filter (fun p => priorityRank p.priority = j)
  rcases hfx : X.filter (fun p => priorityRank p.priority = j) with - | ⟨a, t⟩
  · rw [hfx] at hpf
    rw [hfx, ← List.Perm.nil_eq hpf]
  · have ha : a ∈ X.filter (fun p => priorityRank p.priority = j) := by
      rw [hfx]; exact List.mem_cons_self _ _
    have haX := List.mem_of_mem_filter ha
    have haj : priorityRank a.priority = j := by
      simpa using List.of_mem_filter ha
    have hall : ∀ b ∈ X.filter (fun p => priorityRank p.priority = j), b = a := by
      intro b hb
      have hbj : priorityRank b.priority = j := by simpa using List.of_mem_filter hb
      exact hX b (List.mem_of_mem_filter hb) a haX (by rw [hbj, haj])
    have hallY : ∀ b ∈ Y.filter (fun p => priorityRank p.priority = j), b = a := by
      intro b hb
      rw [hfx] at hpf
      exact hall b (by rw [hfx]; exact hpf.mem_iff.mpr hb)
    have h1 : X.filter (fun p => priorityRank p.priority = j) =
        List.replicate (X.filter (fun p => priorityRank p.priority = j)).length a :=
      List.eq_replicate_iff.mpr ⟨rfl, hall⟩
    have h2 : Y.filter (fun p => priorityRank p.priority = j) =
        List.replicate (Y.filter (fun p => priorityRank p.priority = j)).length a :=
      List.eq_replicate_iff.mpr ⟨rfl, hallY⟩
    rw [h1, h2, hpf.length_eq]

theorem sortByPriorityP_eq_of_perm {X Y : List Proj} (hperm : X.Perm Y)
    (hX : ∀ p ∈ X, ∀ q ∈ X, priorityRank p.priority = priorityRank q.priority → p = q) :
    sortByPriorityP X = sortByPriorityP Y := by
  rw [sortByPriorityP, sortByPriorityP,
    filter_rank_eq_of_perm hperm 0 hX, filter_rank_eq_of_perm hperm 1 hX,
    filter_rank_eq_of_perm hperm 2 hX, filter_rank_eq_of_perm hperm 3 hX]

theorem keyFilter_enumFrom_map_snd (k : String) :
    ∀ (P : List Proj) (n : Nat),
      (keyFilter (List.enumFrom n P) k).map Prod.snd =
        P.filter fun p => projKey p = k := by
  intro P
  induction P with
  | nil => intro n; rfl
  | cons p ps ih =>
      intro n
      rw [List.enumFrom, keyFilter, List.filter_cons, List.filter_cons]
      by_cases h : projKey p = k
      · rw [if_pos (by simpa using h), if_pos (by simpa using h), List.map_cons]
        rw [← keyFilter, ih]
      · rw [if_neg (by simpa using h), if_neg (by simpa using h), ← keyFilter, ih]

theorem keyFilter_enum_map_snd (P : List Proj) (k : String) :
    (keyFilter P.enum k).map Prod.snd = P.filter fun p => projKey p = k := by
  rw [List.enum]
  exact keyFilter_enumFrom_map_snd k P 0

end BinPacker

namespace BinPacker

/-- Two (tagged) district groups that the grid layout cannot tell apart:
same key, stage, category, member count, and the same priority-sorted
member projects once tags are stripped. -/
def GEq (g g' : GroupE) : Prop :=
  g.key = g'.key ∧ g.stage = g'.stage ∧ g.category = g'.category ∧
  g.buildings.length = g'.buildings.length ∧
  (sortByPriority g.buildings).map Prod.snd = (sortByPriority g'.buildings).map Prod.snd

/-- The key-and-district part of a `layoutCategory` output entry. -/
def untag (e : String × (District × List TProj)) : String × District := (e.1, e.2.1)

theorem layoutDistrict_untag (sq : ℚ → ℚ) {g g' : GroupE} (h : GEq g g') (x z : ℚ) :
    (layoutDistrict sq g x z).1.map Prod.snd = (layoutDistrict sq g' x z).1.map Prod.snd ∧
    (layoutDistrict sq g x z).2.1 = (layoutDistrict sq g' x z).2.1 ∧
    (layoutDistrict sq g x z).2.2.1 = (layoutDistrict sq g' x z).2.2.1 ∧
    (layoutDistrict sq g x z).2.2.2 = (layoutDistrict sq g' x z).2.2.2 := by
  obtain ⟨hk, hs, hc, hlen, hsort⟩ := h
  simp only [layoutDistrict]
  refine ⟨?_, ?_, ?_, ?_⟩
  · rw [arrangeGridLayout, arrangeGridLayout, assignFrom_map_snd, assignFrom_map_snd,
      hsort]
  · rw [hlen]
  · rw [hlen]
  · rw [hlen]

theorem layoutCategory_untag (sq : ℚ → ℚ) :
    ∀ {gs gs' : List GroupE}, List.Forall₂ GEq gs gs' →
    ∀ (x z m : ℚ) (acc acc' : List (String × (District × List TProj))),
      acc.map untag = acc'.map untag →
      (layoutCategory sq gs x z m acc).1.map untag =
        (layoutCategory sq gs' x z m acc').1.map untag ∧
      (layoutCategory sq gs x z m acc).2 = (layoutCategory sq gs' x z m acc').2 := by
  intro gs gs' hf
  induction hf with
  | nil =>
      intro x z m acc acc' hacc
      exact ⟨hacc, rfl⟩
  | cons hg ht ih =>
      intro x z m acc acc' hacc
      simp only [layoutCategory]
      obtain ⟨hmem, hbounds, hcur, hdep⟩ := layoutDistrict_untag sq hg x z
      rw [hcur, hdep]
      apply ih
      rw [List.map_append, List.map_append, hacc]
      congr 1
      simp only [List.map_cons, List.map_nil, untag]
      obtain ⟨hk, hs, hc, -, -⟩ := hg
      rw [hk, hs, hc, hmem, hbounds]

theorem layoutCategories_untag (sq : ℚ → ℚ) (groupsP groupsQ : List GroupE) :
    ∀ (cs : List String),
      (∀ c ∈ cs,
        (groupsP.filter fun g => g.category = c).isEmpty =
          (groupsQ.filter fun g => g.category = c).isEmpty ∧
        List.Forall₂ GEq (sortByStage (groupsP.filter fun g => g.category = c))
          (sortByStage (groupsQ.filter fun g => g.category = c))) →
    ∀ (z : ℚ) (acc acc' : List (String × (District × List TProj))),
      acc.map untag = acc'.map untag →
      (layoutCategories sq groupsP cs z acc).map untag =
        (layoutCategories sq groupsQ cs z acc').map untag := by
  intro cs
  induction cs with
  | nil => intro _ z acc acc' hacc; simpa [layoutCategories] using hacc
  | cons c cs ih =>
      intro hcs z acc acc' hacc
      obtain ⟨hempty, hforall⟩ := hcs c (List.mem_cons_self _ _)
      have hcs' := fun c' hc' => hcs c' (List.mem_cons_of_mem _ hc')
      simp only [layoutCategories]
      rw [← hempty]
      by_cases he : (groupsP.filter fun g => g.category = c).isEmpty = true
      · rw [if_pos he, if_pos he]
        exact ih hcs' z acc acc' hacc
      · rw [if_neg he, if_neg he]
        obtain ⟨h1, h2⟩ := layoutCategory_untag sq hforall gridSize z 0 acc acc' hacc
        rw [h2]
        exact ih hcs' _ _ _ h1

end BinPacker

namespace BinPacker

theorem groups_key_decomp {P : List Proj} (hstage : ∀ p ∈ P, p.stage ∈ stages) :
    ∀ g ∈ groupsRec P.enum,
      g.key = g.stage ++ "_" ++ g.category ∧ g.stage ∈ stages ∧
      g.buildings.map Prod.snd = P.filter (fun p => projKey p = g.key) := by
  intro g hg
  obtain ⟨hbld, ⟨hd, tl, hcons, hstg, hcat, hkey⟩, -⟩ := (groupsRec_props P.enum).1 g hg
  have hdP : hd.2 ∈ P := by
    have hmem : hd ∈ g.buildings := by rw [hcons]; exact List.mem_cons_self _ _
    rw [hbld, keyFilter] at hmem
    have h2 := List.mem_of_mem_filter hmem
    have h3 := List.mem_map_of_mem Prod.snd h2
    rwa [List.enum_map_snd] at h3
  refine ⟨?_, ?_, ?_⟩
  · rw [hstg, hcat]
    exact hkey.symm
  · rw [hstg]
    exact hstage hd.2 hdP
  · rw [hbld, keyFilter_enum_map_snd]

theorem groups_key_exists_iff {P : List Proj} (k : String) :
    (∃ g ∈ groupsRec P.enum, g.key = k) ↔ ∃ p ∈ P, projKey p = k := by
  constructor
  · rintro ⟨g, hg, rfl⟩
    obtain ⟨-, -, tp, htp, hkey⟩ := (groupsRec_props P.enum).1 g hg
    refine ⟨tp.2, ?_, hkey⟩
    have := List.mem_map_of_mem Prod.snd htp
    rwa [List.enum_map_snd] at this
  · rintro ⟨p, hp, hk⟩
    apply (groupsRec_props P.enum).2.2 k
    have hpm : p ∈ P.enum.map Prod.snd := by rw [List.enum_map_snd]; exact hp
    obtain ⟨tp, htp, htp2⟩ := List.mem_map.mp hpm
    exact ⟨tp, htp, by rw [htp2]; exact hk⟩

theorem filter_key_shape :
    ∀ (gs : List GroupE), ((gs.map GroupE.key).Nodup) → ∀ k : String,
      gs.filter (fun g => g.key = k) = [] ∨
      ∃ g ∈ gs, g.key = k ∧ gs.filter (fun g => g.key = k) = [g] := by
  intro gs
  induction gs with
  | nil => intro _ k; exact Or.inl rfl
  | cons g t ih =>
      intro hnd k
      rw [List.map_cons, List.nodup_cons] at hnd
      rw [List.filter_cons]
      by_cases hk : g.key = k
      · rw [if_pos (by simpa using hk)]
        right
        refine ⟨g, List.mem_cons_self _ _, hk, ?_⟩
        have ht : t.filter (fun g => g.key = k) = [] := by
          rw [List.filter_eq_nil_iff]
          intro g' hg' hgk'
          apply hnd.1
          rw [hk, ← show g'.key = k from by simpa using hgk']
          exact List.mem_map_of_mem GroupE.key hg'
        rw [ht]
      · rw [if_neg (by simpa using hk)]
        rcases ih hnd.2 k with h | ⟨g', hg', hk', hf⟩
        · exact Or.inl h
        · exact Or.inr ⟨g', List.mem_cons_of_mem _ hg', hk', hf⟩

/-- The stage-`i` bucket of a category's districts is the key filter for
the unique key `s ++ "_" ++ c`. -/
theorem bucket_eq_key_filter {P : List Proj} (hstage : ∀ p ∈ P, p.stage ∈ stages)
    (i : Int) (s : String) (hs : s ∈ stages) (hsi : stageIdx s = i) (c : String) :
    ((groupsRec P.enum).filter fun g => g.category = c).filter
        (fun g => stageIdx g.stage = i) =
      (groupsRec P.enum).filter fun g => g.key = s ++ "_" ++ c := by
  rw [List.filter_filter]
  apply List.filter_congr
  intro g hg
  obtain ⟨hkey, hstg, -⟩ := groups_key_decomp hstage g hg
  have hiff : (g.category = c ∧ stageIdx g.stage = i) ↔ g.key = s ++ "_" ++ c := by
    constructor
    · rintro ⟨hc, hi⟩
      have : g.stage = s := stageIdx_inj hstg hs (by rw [hi, hsi])
      rw [hkey, this, hc]
    · intro hk
      rw [hkey] at hk
      obtain ⟨h1, h2⟩ := stage_key_det hstg hs hk
      exact ⟨h2, by rw [h1, hsi]⟩
  have hnk1 : ¬ stageIdx g.stage = i → ¬ g.key = s ++ "_" ++ c :=
    fun hi hk => hi (hiff.mpr hk).2
  have hnk2 : ¬ g.category = c → ¬ g.key = s ++ "_" ++ c :=
    fun hc hk => hc (hiff.mpr hk).1
  by_cases hc : g.category = c <;> by_cases hi : stageIdx g.stage = i
  · simp [hc, hi, hiff.mp ⟨hc, hi⟩]
  · simp [hc, hi, hnk1 hi]
  · simp [hc, hi, hnk2 hc]
  · simp [hc, hi, hnk2 hc]

/-- The `-1` bucket is empty when every stage is canonical. -/
theorem bucket_neg_one_empty {P : List Proj} (hstage : ∀ p ∈ P, p.stage ∈ stages)
    (c : String) :
    ((groupsRec P.enum).filter fun g => g.category = c).filter
      (fun g => stageIdx g.stage = -1) = [] := by
  rw [List.filter_eq_nil_iff]
  intro g hg hneg
  obtain ⟨-, hstg, -⟩ := groups_key_decomp hstage g (List.mem_of_mem_filter hg)
  exact stageIdx_nonneg hstg (by simpa using hneg)

end BinPacker

namespace BinPacker

theorem forall2_append {α β : Type} {R : α → β → Prop} :
    ∀ {l1 : List α} {l2 : List β} {u1 : List α} {u2 : List β},
      List.Forall₂ R l1 l2 → List.Forall₂ R u1 u2 →
      List.Forall₂ R (l1 ++ u1) (l2 ++ u2) := by
  intro l1 l2 u1 u2 h hu
  induction h with
  | nil => simpa using hu
  | cons hr _ ih => exact List.Forall₂.cons hr ih

theorem bucket_cross {P Q : List Proj} (hperm : P.Perm Q)
    (hstP : ∀ p ∈ P, p.stage ∈ stages)
    (hrank : ∀ p ∈ P, ∀ q ∈ P, projKey p = projKey q →
      priorityRank p.priority = priorityRank q.priority → p = q)
    (i : Int) (s : String) (hs : s ∈ stages) (hsi : stageIdx s = i) (c : String) :
    List.Forall₂ GEq
      (((groupsRec P.enum).filter fun g => g.category = c).filter
        fun g => stageIdx g.stage = i)
      (((groupsRec Q.enum).filter fun g => g.category = c).filter
        fun g => stageIdx g.stage = i) := by
  have hstQ : ∀ p ∈ Q, p.stage ∈ stages := fun p hp => hstP p (hperm.mem_iff.mpr hp)
  rw [bucket_eq_key_filter hstP i s hs hsi c, bucket_eq_key_filter hstQ i s hs hsi c]
  have hex : (∃ g ∈ groupsRec P.enum, g.key = s ++ "_" ++ c) ↔
      (∃ g ∈ groupsRec Q.enum, g.key = s ++ "_" ++ c) := by
    rw [groups_key_exists_iff, groups_key_exists_iff]
    constructor
    · rintro ⟨p, hp, hk⟩
      exact ⟨p, hperm.mem_iff.mp hp, hk⟩
    · rintro ⟨p, hp, hk⟩
      exact ⟨p, hperm.mem_iff.mpr hp, hk⟩
  rcases filter_key_shape _ (groupsRec_props P.enum).2.1 (s ++ "_" ++ c) with
    hP | ⟨gP, hgP, hkP, hfP⟩
  · have hnoP : ¬ ∃ g ∈ groupsRec P.enum, g.key = s ++ "_" ++ c := by
      rintro ⟨g, hg, hk⟩
      have hmem : g ∈ (groupsRec P.enum).filter fun g => g.key = s ++ "_" ++ c :=
        List.mem_filter_of_mem hg (by simpa using hk)
      rw [hP] at hmem
      exact List.not_mem_nil g hmem
    rcases filter_key_shape _ (groupsRec_props Q.enum).2.1 (s ++ "_" ++ c) with
      hQ | ⟨gQ, hgQ, hkQ, hfQ⟩
    · rw [hP, hQ]
      exact List.Forall₂.nil
    · exact absurd (hex.mpr ⟨gQ, hgQ, hkQ⟩) hnoP
  · rcases filter_key_shape _ (groupsRec_props Q.enum).2.1 (s ++ "_" ++ c) with
      hQ | ⟨gQ, hgQ, hkQ, hfQ⟩
    · have hnoQ : ¬ ∃ g ∈ groupsRec Q.enum, g.key = s ++ "_" ++ c := by
        rintro ⟨g, hg, hk⟩
        have hmem : g ∈ (groupsRec Q.enum).filter fun g => g.key = s ++ "_" ++ c :=
          List.mem_filter_of_mem hg (by simpa using hk)
        rw [hQ] at hmem
        exact List.not_mem_nil g hmem
      exact absurd (hex.mp ⟨gP, hgP, hkP⟩) hnoQ
    · rw [hfP, hfQ]
      refine List.Forall₂.cons ?_ List.Forall₂.nil
      obtain ⟨hkeyP, hstgP, hbP⟩ := groups_key_decomp hstP gP hgP
      obtain ⟨hkeyQ, hstgQ, hbQ⟩ := groups_key_decomp hstQ gQ hgQ
      have hdetP := stage_key_det hstgP hs (hkeyP.symm.trans hkP)
      have hdetQ := stage_key_det hstgQ hs (hkeyQ.symm.trans hkQ)
      have hfilterPerm : (P.filter fun p => projKey p = s ++ "_" ++ c).Perm
          (Q.filter fun p => projKey p = s ++ "_" ++ c) := hperm.filter _
      have hrank' : ∀ p ∈ P.filter (fun p => projKey p = s ++ "_" ++ c),
          ∀ q ∈ P.filter (fun p => projKey p = s ++ "_" ++ c),
          priorityRank p.priority = priorityRank q.priority → p = q := by
        intro p hp q hq hr
        refine hrank p (List.mem_of_mem_filter hp) q (List.mem_of_mem_filter hq) ?_ hr
        rw [show projKey p = s ++ "_" ++ c from by simpa using List.of_mem_filter hp,
          show projKey q = s ++ "_" ++ c from by simpa using List.of_mem_filter hq]
      refine ⟨by rw [hkP, hkQ], by rw [hdetP.1, hdetQ.1], by rw [hdetP.2, hdetQ.2], ?_, ?_⟩
      · have hl : (gP.buildings.map Prod.snd).length = (gQ.buildings.map Prod.snd).length := by
          rw [hbP, hbQ, hkP, hkQ]
          exact hfilterPerm.length_eq
        simpa using hl
      · rw [sortByPriority_map_snd, sortByPriority_map_snd, hbP, hbQ, hkP, hkQ]
        exact sortByPriorityP_eq_of_perm hfilterPerm hrank'

theorem sortByStage_cross {P Q : List Proj} (hperm : P.Perm Q)
    (hstP : ∀ p ∈ P, p.stage ∈ stages)
    (hrank : ∀ p ∈ P, ∀ q ∈ P, projKey p = projKey q →
      priorityRank p.priority = priorityRank q.priority → p = q)
    (c : String) :
    List.Forall₂ GEq
      (sortByStage ((groupsRec P.enum).filter fun g => g.category = c))
      (sortByStage ((groupsRec Q.enum).filter fun g => g.category = c)) := by
  have hstQ : ∀ p ∈ Q, p.stage ∈ stages := fun p hp => hstP p (hperm.mem_iff.mpr hp)
  rw [sortByStage, sortByStage]
  refine forall2_append (forall2_append (forall2_append (forall2_append ?_ ?_) ?_) ?_) ?_
  · rw [bucket_neg_one_empty hstP c, bucket_neg_one_empty hstQ c]
    exact List.Forall₂.nil
  · exact bucket_cross hperm hstP hrank 0 "backlog" (by simp [stages]) (by simp [stageIdx]) c
  · exact bucket_cross hperm hstP hrank 1 "active" (by simp [stages]) (by simp [stageIdx]) c
  · exact bucket_cross hperm hstP hrank 2 "paused" (by simp [stages]) (by simp [stageIdx]) c
  · exact bucket_cross hperm hstP hrank 3 "complete" (by simp [stages]) (by simp [stageIdx]) c

theorem catFilter_exists_iff {P : List Proj} (hstage : ∀ p ∈ P, p.stage ∈ stages)
    (c : String) :
    (∃ g ∈ groupsRec P.enum, g.category = c) ↔ ∃ p ∈ P, p.category = c := by
  constructor
  · rintro ⟨g, hg, rfl⟩
    obtain ⟨hbld, ⟨hd, tl, hcons, -, hcat, -⟩, -⟩ := (groupsRec_props P.enum).1 g hg
    have hmem : hd ∈ g.buildings := by rw [hcons]; exact List.mem_cons_self _ _
    rw [hbld, keyFilter] at hmem
    have h2 := List.mem_of_mem_filter hmem
    have h3 := List.mem_map_of_mem Prod.snd h2
    rw [List.enum_map_snd] at h3
    exact ⟨hd.2, h3, hcat.symm⟩
  · rintro ⟨p, hp, hc⟩
    obtain ⟨g, hg, hk⟩ := (groups_key_exists_iff (projKey p)).mpr ⟨p, hp, rfl⟩
    obtain ⟨hkeyg, hstgg, -⟩ := groups_key_decomp hstage g hg
    have hdet := stage_key_det hstgg (hstage p hp) (hkeyg.symm.trans hk)
    exact ⟨g, hg, hdet.2.trans hc⟩

theorem isEmpty_eq_of_nil_iff {α : Type} {l1 l2 : List α} (h : l1 = [] ↔ l2 = []) :
    l1.isEmpty = l2.isEmpty := by
  cases l1 <;> cases l2 <;> simp_all

theorem catFilter_isEmpty_cross {P Q : List Proj} (hperm : P.Perm Q)
    (hstP : ∀ p ∈ P, p.stage ∈ stages) (c : String) :
    ((groupsRec P.enum).filter fun g => g.category = c).isEmpty =
      ((groupsRec Q.enum).filter fun g => g.category = c).isEmpty := by
  have hstQ : ∀ p ∈ Q, p.stage ∈ stages := fun p hp => hstP p (hperm.mem_iff.mpr hp)
  apply isEmpty_eq_of_nil_iff
  rw [List.filter_eq_nil_iff, List.filter_eq_nil_iff]
  have e1 : (∀ g ∈ groupsRec P.enum, ¬ (g.category = c)) ↔
      ¬ ∃ p ∈ P, p.category = c := by
    rw [← catFilter_exists_iff hstP c]
    constructor
    · rintro h ⟨g, hg, hc⟩
      exact h g hg hc
    · intro h g hg hc
      exact h ⟨g, hg, hc⟩
  have e2 : (∀ g ∈ groupsRec Q.enum, ¬ (g.category = c)) ↔
      ¬ ∃ p ∈ Q, p.category = c := by
    rw [← catFilter_exists_iff hstQ c]
    constructor
    · rintro h ⟨g, hg, hc⟩
      exact h g hg hc
    · intro h g hg hc
      exact h ⟨g, hg, hc⟩
  have e3 : (¬ ∃ p ∈ P, p.category = c) ↔ ¬ ∃ p ∈ Q, p.category = c := by
    constructor
    · rintro h ⟨p, hp, hc⟩
      exact h ⟨p, hperm.mem_iff.mpr hp, hc⟩
    · rintro h ⟨p, hp, hc⟩
      exact h ⟨p, hperm.mem_iff.mp hp, hc⟩
  constructor
  · intro h
    exact fun g hg hc => (e2.mpr (e3.mp (e1.mp fun g' hg' hc' => by
      simpa using h g' hg' (by simpa using hc')))) g hg (by simpa using hc)
  · intro h
    exact fun g hg hc => (e1.mpr (e3.mpr (e2.mp fun g' hg' hc' => by
      simpa using h g' hg' (by simpa using hc')))) g hg (by simpa using hc)

theorem sortedCategories_perm_eq {P Q : List Proj} (hperm : P.Perm Q) :
    sortedCategories P = sortedCategories Q := by
  rw [sortedCategories, sortedCategories]
  refine List.eq_of_perm_of_sorted ?_ (List.sorted_insertionSort _ _)
    (List.sorted_insertionSort _ _)
  exact (List.perm_insertionSort _ _).trans
    (((hperm.map Proj.category).dedup).trans (List.perm_insertionSort _ _).symm)

end BinPacker

open BinPacker in
/-- C2 (amended): `packDistricts` is order-independent on the district
map under two provisos — every entity's stage is one of the four
canonical stage names (so the grouping key determines stage and category
and the stage sort is canonical), and no two distinct entities of the
same district share a priority rank (so the stable priority sort cannot
tie on input order).  Then any permutation of the entity list produces an
identical district map: same keys in the same order, same stages,
categories, member lists with positions and dimensions, and bounds.  (The
counterexample shows the second proviso is necessary.) -/
theorem C2_pack_permutation_invariant_conditional (sq : ℚ → ℚ) (P Q : List Proj)
    (hperm : P.Perm Q)
    (hstage : ∀ p ∈ P, p.stage ∈ BinPacker.stages)
    (hrank : ∀ p ∈ P, ∀ q ∈ P, projKey p = projKey q →
      BinPacker.priorityRank p.priority = BinPacker.priorityRank q.priority → p = q) :
    (BinPacker.packDistricts sq P).1 = (BinPacker.packDistricts sq Q).1 := by
  simp only [packDistricts]
  rw [buildGroups_eq_rec, buildGroups_eq_rec, sortedCategories_perm_eq hperm]
  exact layoutCategories_untag sq (groupsRec P.enum) (groupsRec Q.enum) (sortedCategories Q)
    (fun c _ => ⟨catFilter_isEmpty_cross hperm hstage c,
      sortByStage_cross hperm hstage hrank c⟩)
    gridSize [] [] rfl

set_option maxRecDepth 8000 in
theorem C2_pack_permutation_invariant_conditional_witness :
    (BinPacker.packDistricts sqConst5 [entA, entM]).1 =
      (BinPacker.packDistricts sqConst5 [entM, entA]).1 :=
  C2_pack_permutation_invariant_conditional sqConst5 [entA, entM] [entM, entA]
    (by with_unfolding_all decide) (by with_unfolding_all decide)
    (by with_unfolding_all decide)

/-! ## C10 — origin-centering on rebuild -/

theorem filterMap_position_map_move (P : List Proj) (dx dz : ℚ) :
    (P.map fun p => Scene.moveProjXZ p dx dz).filterMap Proj.position =
      (P.filterMap Proj.position).map fun q => ⟨q.x + dx, q.z + dz⟩ := by
  induction P with
  | nil => rfl
  | cons p ps ih =>
      cases hp : p.position with
      | none =>
          have hmv : (Scene.moveProjXZ p dx dz).position = none := by
            simp [Scene.moveProjXZ, hp]
          simp only [List.map_cons, List.filterMap_cons, hmv, hp]
          exact ih
      | some q =>
          have hmv : (Scene.moveProjXZ p dx dz).position = some ⟨q.x + dx, q.z + dz⟩ := by
            simp [Scene.moveProjXZ, hp]
          simp only [List.map_cons, List.filterMap_cons, hmv, hp]
          rw [ih]

theorem foldl_minmax_map_shift (op : ℚ → ℚ → ℚ)
    (hop : ∀ u v w : ℚ, op (u + w) (v + w) = op u v + w)
    (f : Pos → ℚ) (δ : ℚ) (g : Pos → Pos) (hf : ∀ q, f (g q) = f q + δ) :
    ∀ (l : List Pos) (c : ℚ),
      (l.map g).foldl (fun m q => op m (f q)) (c + δ) =
        l.foldl (fun m q => op m (f q)) c + δ := by
  intro l
  induction l with
  | nil => intro c; rfl
  | cons q qs ih =>
      intro c
      simp only [List.map_cons, List.foldl_cons, hf q]
      rw [hop, ih]

/-- C10: the centering pass of `buildCity`.  When at least one entity has
a position, every entity and every district's bounds are translated by
one and the same shift — exactly the midpoint of the occupied extent,
with no grid snapping — after which the extent is symmetric about the
origin in both axes; and `buildCity` performs this centering on the fresh
layout before `applySavedPositions` reapplies the stored offsets. -/
theorem C10_rebuild_centered_on_origin (P : List Proj) (D : List (String × District))
    (st : Scene) (hne : P.filterMap Proj.position ≠ []) :
    ∃ mnx mxx mnz mxz : ℚ, positionExtent P = some (mnx, mxx, mnz, mxz) ∧
      (Scene.centerLayout P D).1 =
        P.map (fun p => Scene.moveProjXZ p (-((mnx + mxx) / 2)) (-((mnz + mxz) / 2))) ∧
      (Scene.centerLayout P D).2 =
        D.map (fun e => (e.1, { e.2 with bounds := { e.2.bounds with
          x := e.2.bounds.x - (mnx + mxx) / 2, z := e.2.bounds.z - (mnz + mxz) / 2 } })) ∧
      positionExtent (Scene.centerLayout P D).1 =
        some (mnx - (mnx + mxx) / 2, mxx - (mnx + mxx) / 2,
              mnz - (mnz + mxz) / 2, mxz - (mnz + mxz) / 2) ∧
      (mnx - (mnx + mxx) / 2) + (mxx - (mnx + mxx) / 2) = 0 ∧
      (mnz - (mnz + mxz) / 2) + (mxz - (mnz + mxz) / 2) = 0 ∧
      Scene.buildCity P D st =
        Scene.applySavedPositions (Scene.centerSingleBuildings
          { st with projects := (Scene.centerLayout P D).1
                    blocks := Scene.mkBlocks (Scene.centerLayout P D).2
                    blockOffsets := [] }) := by
  cases h : P.filterMap Proj.position with
  | nil => exact absurd h hne
  | cons a rest =>
      set dx := -((rest.foldl (fun m q => min m q.x) a.x +
        rest.foldl (fun m q => max m q.x) a.x) / 2) with hdx
      set dz := -((rest.foldl (fun m q => min m q.z) a.z +
        rest.foldl (fun m q => max m q.z) a.z) / 2) with hdz
      have hext : positionExtent P =
          some (rest.foldl (fun m q => min m q.x) a.x,
                rest.foldl (fun m q => max m q.x) a.x,
                rest.foldl (fun m q => min m q.z) a.z,
                rest.foldl (fun m q => max m q.z) a.z) := by
        rw [positionExtent, h]
      have hc1 : (Scene.centerLayout P D).1 = P.map fun p => Scene.moveProjXZ p dx dz := by
        rw [Scene.centerLayout, hext]
      have hfm : ((Scene.centerLayout P D).1).filterMap Proj.position =
          (a :: rest).map fun q => ⟨q.x + dx, q.z + dz⟩ := by
        rw [hc1, filterMap_position_map_move, h]
      refine ⟨_, _, _, _, hext, hc1, ?_, ?_, by ring, by ring, rfl⟩
      · rw [Scene.centerLayout, hext]
      · rw [positionExtent, hfm]
        simp only [List.map_cons]
        congr 1
        have hx := foldl_minmax_map_shift min (fun u v w => (min_add_add_right u v w))
          (fun q => q.x) dx (fun q => ⟨q.x + dx, q.z + dz⟩) (fun q => rfl) rest
        have hX := foldl_minmax_map_shift max (fun u v w => (max_add_add_right u v w))
          (fun q => q.x) dx (fun q => ⟨q.x + dx, q.z + dz⟩) (fun q => rfl) rest
        have hz := foldl_minmax_map_shift min (fun u v w => (min_add_add_right u v w))
          (fun q => q.z) dz (fun q => ⟨q.x + dx, q.z + dz⟩) (fun q => rfl) rest
        have hZ := foldl_minmax_map_shift max (fun u v w => (max_add_add_right u v w))
          (fun q => q.z) dz (fun q => ⟨q.x + dx, q.z + dz⟩) (fun q => rfl) rest
        rw [hx a.x, hX a.x, hz a.z, hZ a.z]
        simp only [Prod.mk.injEq]
        exact ⟨by ring, by ring, by ring, by ring⟩

/-- C10, witness: for the two-entity city (extent `[10, 15] × [10, 10]`),
the centering shift is `(12.5, 10)` — itself not a grid multiple — and
the recentered extent is symmetric about the origin. -/
theorem C10_rebuild_centered_on_origin_witness :
    positionExtent (BinPacker.packDistricts sqConst5 pairList).2 = some (10, 15, 10, 10) ∧
    positionExtent
      (Scene.centerLayout (BinPacker.packDistricts sqConst5 pairList).2
        (BinPacker.packDistricts sqConst5 pairList).1).1 =
      some (10 - (10 + 15) / 2, 15 - (10 + 15) / 2, 10 - (10 + 10) / 2, 10 - (10 + 10) / 2) ∧
    ¬ GridAligned ((10 + 15) / 2) := by
  have h := C10_rebuild_centered_on_origin (BinPacker.packDistricts sqConst5 pairList).2
    (BinPacker.packDistricts sqConst5 pairList).1 (Scene.initScene [])
    (by with_unfolding_all decide)
  obtain ⟨mnx, mxx, mnz, mxz, hext, _, _, hres, _⟩ := h
  have hvals : mnx = 10 ∧ mxx = 15 ∧ mnz = 10 ∧ mxz = 10 := by
    have : positionExtent (BinPacker.packDistricts sqConst5 pairList).2 =
        some (10, 15, 10, 10) := by with_unfolding_all decide
    rw [this] at hext
    simp only [Option.some.injEq, Prod.mk.injEq] at hext
    exact ⟨hext.1.symm, hext.2.1.symm, hext.2.2.1.symm, hext.2.2.2.symm⟩
  obtain ⟨h1, h2, h3, h4⟩ := hvals
  subst h1 h2 h3 h4
  exact ⟨hext.symm ▸ hext, hres, by with_unfolding_all decide⟩

/-! ## C8 — sanity bound on persisted offsets -/

/-- C8: a persisted offset whose `|offsetX|` or `|offsetZ|` exceeds the
sanity bound 500 is discarded when saved positions are reapplied: its
category is logged as a warning, no block offset is recorded for it, and
— since the effective offset of that category is zero — every project of
that category keeps its freshly computed layout position. -/
theorem C8_extreme_offset_discarded (st : Scene) (c : String) (o : ℚ × ℚ)
    (hnodup : (st.savedPositions.map Prod.fst).Nodup)
    (hmem : alGet st.savedPositions c = some o)
    (hbig : 500 < |o.1| ∨ 500 < |o.2|) :
    c ∈ (Scene.applySavedPositions st).warnings ∧
    alGet (Scene.applySavedPositions st).blockOffsets c = alGet st.blockOffsets c ∧
    (Scene.applySavedPositions st).projects = st.projects.map (applyShift st.savedPositions) ∧
    effOffset st.savedPositions c = (0, 0) ∧
    ∀ p : Proj, p.category = c → applyShift st.savedPositions p = p := by
  have heff : effOffset st.savedPositions c = (0, 0) := by
    simp only [effOffset, hmem]
    exact if_pos hbig
  refine ⟨?_, ?_, ?_, heff, ?_⟩
  · rw [Scene.applySavedPositions, warnings_applyFold]
    apply List.mem_append_right
    refine List.mem_map.mpr ⟨(c, o), ?_, rfl⟩
    apply List.mem_filter_of_mem (mem_of_alGet_eq_some hmem)
    simpa using hbig
  · rw [Scene.applySavedPositions, blockOffsets_applyFold _ _ hnodup, hmem]
    exact if_pos hbig
  · rw [Scene.applySavedPositions, projects_applyFold _ _ hnodup]
  · intro p hp
    rw [applyShift, hp, heff]
    split
    · exact moveProjXZ_zero p
    · rfl

/-- A rebuilt scene whose persisted store holds the out-of-bounds offset
`(10000, 0)` for category `"c"`. -/
def sceneExtreme : Scene := { sceneR0 with savedPositions := [("c", (10000, 0))] }

set_option maxRecDepth 8000 in
/-- C8, witness: reapplying the store `[("c", (10000, 0))]` warns about
`"c"` and records no offset for it. -/
theorem C8_extreme_offset_discarded_witness :
    "c" ∈ (Scene.applySavedPositions sceneExtreme).warnings ∧
    alGet (Scene.applySavedPositions sceneExtreme).blockOffsets "c" =
      alGet sceneExtreme.blockOffsets "c" ∧
    effOffset sceneExtreme.savedPositions "c" = (0, 0) := by
  have h := C8_extreme_offset_discarded sceneExtreme "c" (10000, 0)
    (by with_unfolding_all decide) (by with_unfolding_all rfl)
    (Or.inl (by rw [abs_of_nonneg (by norm_num : (0 : ℚ) ≤ 10000)]; norm_num))
  exact ⟨h.1, h.2.1, h.2.2.2.1⟩

/-! ## C9 — entities with missing size score -/

/-- C9, counterexample: an entity with no `scope` does not get the
claimed default base size of 1 — `Math.sqrt(undefined)` is `NaN` and the
`min`/`max` clamp passes it through, so width and depth are `NaN`; and
for a present score the clamp's lower bound is 2, not 1 (scope 0 gives
width 2). -/
theorem C9_missing_scope_gives_nan_not_one :
    ((packDistricts sqConst5 [mkEntity "n" "c" "active" "high" none]).2.map
      fun p => p.dimensions.map Dims.width) = [some JVal.nan] ∧
    (some JVal.nan ≠ some (JVal.num 1)) ∧
    ((packDistricts sqConst0 [mkEntity "z" "c" "active" "high" (some 0)]).2.map
      fun p => p.dimensions.map Dims.width) = [some (JVal.num 2)] := by
  with_unfolding_all decide

end Hypernovum
